import Mathlib

/-!
Verification of the rtiow ray-tracing engine: a shallow embedding of the
Rust sources (vector / interval / AABB math, sphere intersection, the
BVH accelerator, the linear `HittableList` scan, material scattering,
`ray_color`, the PPM colour output path, and the scene loader) together
with proofs and refutations of the specified properties.

Modelling conventions, used uniformly below:
* `f64` values are modelled by `F`, the rationals extended with two
  infinities.  The arithmetic cases that IEEE-754 leaves to NaN
  (`∞ - ∞`, `0 * ∞`, `0 / 0`) are given the junk value `F.posInf`; no
  theorem below depends on those cases, and hypotheses (finite boxes,
  nonzero ray-direction components) keep every computation inside the
  faithfully modelled region.  Rounding of `f64` arithmetic is not
  modelled: arithmetic is exact, and `f64::sqrt` is modelled by the
  kernel-computable rational square root `qsqrt` (exact on perfect
  squares; every concrete evaluation below uses perfect squares only).
* Rust `Option` is Lean `Option`; a Rust panic is modelled explicitly
  (`LoadErr.panic`).
* The ambient thread-local RNG (`Vec3::random_unit_vector`) is threaded
  as an explicit argument where a scattering function needs it.
-/

namespace Rtiow

/-- Extended rationals modelling `f64` (`negInf` = `f64::NEG_INFINITY`,
`posInf` = `f64::INFINITY`).  NaN is not modelled; see the header. -/
inductive F where
  | negInf
  | val (q : ℚ)
  | posInf
deriving DecidableEq, Repr

/-- The `f64` strict order `<` restricted to non-NaN values. -/
def F.lt : F → F → Bool
  | .negInf, .negInf => false
  | .negInf, _ => true
  | .val _, .negInf => false
  | .val a, .val b => a < b
  | .val _, .posInf => true
  | .posInf, _ => false

/-- The `f64` order `<=`; on non-NaN values `a <= b` iff `¬ (b < a)`. -/
def F.le (a b : F) : Bool := !(F.lt b a)

/-- `f64` addition; the IEEE NaN case `∞ + (-∞)` gets the junk value
`posInf` (never reached by the theorems below). -/
def F.add : F → F → F
  | .val a, .val b => .val (a + b)
  | .posInf, .negInf => .posInf
  | .negInf, .posInf => .posInf
  | .posInf, _ => .posInf
  | .negInf, _ => .negInf
  | .val _, .posInf => .posInf
  | .val _, .negInf => .negInf

/-- `f64` subtraction; the IEEE NaN cases `∞ - ∞` and `(-∞) - (-∞)` get
the junk value `posInf` (never reached by the theorems below). -/
def F.sub : F → F → F
  | .val a, .val b => .val (a - b)
  | .posInf, .posInf => .posInf
  | .negInf, .negInf => .posInf
  | .posInf, _ => .posInf
  | .negInf, _ => .negInf
  | .val _, .posInf => .negInf
  | .val _, .negInf => .posInf

/-- `f64` multiplication; the IEEE NaN cases `0 * ∞` get the junk value
`posInf` (never reached by the theorems below). -/
def F.mul : F → F → F
  | .val a, .val b => .val (a * b)
  | .posInf, .posInf => .posInf
  | .posInf, .negInf => .negInf
  | .negInf, .posInf => .negInf
  | .negInf, .negInf => .posInf
  | .posInf, .val b => if 0 < b then .posInf else if b < 0 then .negInf else .posInf
  | .negInf, .val b => if 0 < b then .negInf else if b < 0 then .posInf else .posInf
  | .val a, .posInf => if 0 < a then .posInf else if a < 0 then .negInf else .posInf
  | .val a, .negInf => if 0 < a then .negInf else if a < 0 then .posInf else .posInf

/-- `f64` division, as used for `1.0 / dir` in the slab test: division of
a finite value by `0.0` gives a signed infinity (`0/0` junk `posInf`);
division by an infinity gives `0`. -/
def F.div : F → F → F
  | .val a, .val b =>
    if b = 0 then (if 0 < a then .posInf else if a < 0 then .negInf else .posInf)
    else .val (a / b)
  | .val _, .posInf => .val 0
  | .val _, .negInf => .val 0
  | .posInf, .val b => if b < 0 then .negInf else .posInf
  | .negInf, .val b => if b < 0 then .posInf else .negInf
  | _, _ => .posInf

/-- Whether an `F` value is finite. -/
def F.isFinite : F → Bool
  | .val _ => true
  | _ => false

/-- Extract the rational from a finite `F` value (junk `0` at infinities;
used only where finiteness is known). -/
def F.toQ : F → ℚ
  | .val q => q
  | _ => 0

/-- Integer Newton iteration for the floor square root: from an
overestimate `g`, step to `(g + n / g) / 2` while it decreases.  The
recursion is structural in `fuel`, so the kernel can evaluate it (the
library `Nat.sqrt` is defined by well-founded recursion and cannot be
reduced by `decide`). -/
def isqrtGo : ℕ → ℕ → ℕ → ℕ
  | 0, _, g => g
  | fuel + 1, n, g =>
    let next := (g + n / g) / 2
    if next < g then isqrtGo fuel n next else g

/-- Floor square root of a natural number by Newton iteration, with
enough fuel to always converge (the iteration halts long before the
fuel runs out; when it converges the result is exactly `Nat.sqrt n`,
and it never goes below `Nat.sqrt n`, which is all the proofs use). -/
def isqrtN (n : ℕ) : ℕ := if n ≤ 1 then n else isqrtGo n n n

/-- The model of `f64::sqrt` on rationals: `√(n/d) = √(n·d) / d` with
the integer Newton floor square root.  Exact whenever the argument is a
square of a rational (all concrete evaluations below), nonnegative, and
never less than half the true square root (`sqrt4_bound` below) — the
only properties of `f64::sqrt` the claims rely on.  Negative arguments
(where `f64` gives NaN) return the junk value `0`; every call site
guards the sign. -/
def qsqrt (q : ℚ) : ℚ :=
  if q ≤ 0 then 0
  else (isqrtN (q.num.toNat * q.den) : ℚ) / (q.den : ℚ)

/-- `Vec3` from `src/vec.rs`: three `f64` components.  All uses in the
claims keep components finite, so the components are plain rationals. -/
structure Vec3Q where
  x : ℚ
  y : ℚ
  z : ℚ
deriving DecidableEq, Repr

/-- `Vec3::ZERO`. -/
def Vec3Q.ZERO : Vec3Q := ⟨0, 0, 0⟩

/-- Componentwise addition (`impl Add for Vec3`). -/
def Vec3Q.add (a b : Vec3Q) : Vec3Q := ⟨a.x + b.x, a.y + b.y, a.z + b.z⟩

/-- Componentwise subtraction (`impl Sub for Vec3`). -/
def Vec3Q.sub (a b : Vec3Q) : Vec3Q := ⟨a.x - b.x, a.y - b.y, a.z - b.z⟩

/-- Negation (`impl Neg for Vec3`). -/
def Vec3Q.neg (a : Vec3Q) : Vec3Q := ⟨-a.x, -a.y, -a.z⟩

/-- Scalar multiplication (`impl Mul<f64> for Vec3`). -/
def Vec3Q.smul (s : ℚ) (a : Vec3Q) : Vec3Q := ⟨s * a.x, s * a.y, s * a.z⟩

/-- Componentwise (Hadamard) product (`impl Mul for Vec3`), used for
colour attenuation. -/
def Vec3Q.cmul (a b : Vec3Q) : Vec3Q := ⟨a.x * b.x, a.y * b.y, a.z * b.z⟩

/-- Scalar division (`impl Div<f64> for Vec3`): `(1.0 / rhs) * self`.
With `rhs = 0` Lean gives `1/0 = 0` where `f64` gives `∞`; no claim
below divides a vector by zero. -/
def Vec3Q.divs (a : Vec3Q) (s : ℚ) : Vec3Q := Vec3Q.smul (1 / s) a

/-- `Vec3::dot`. -/
def Vec3Q.dot (a b : Vec3Q) : ℚ := a.x * b.x + a.y * b.y + a.z * b.z

/-- `Vec3::length_squared`. -/
def Vec3Q.length_squared (a : Vec3Q) : ℚ := a.x * a.x + a.y * a.y + a.z * a.z

/-- `Vec3::length`, with `f64::sqrt` modelled by `qsqrt`. -/
def Vec3Q.length (a : Vec3Q) : ℚ := qsqrt a.length_squared

/-- `Vec3::unit_vector`: `self / self.length()`. -/
def Vec3Q.unit_vector (a : Vec3Q) : Vec3Q := a.divs a.length

/-- `Vec3::near_zero`: all components below `1e-8` in absolute value. -/
def Vec3Q.near_zero (a : Vec3Q) : Bool :=
  |a.x| < 1 / 100000000 && |a.y| < 1 / 100000000 && |a.z| < 1 / 100000000

/-- `Vec3::reflect`: `v - 2.0 * v.dot(n) * n`. -/
def Vec3Q.reflect (v n : Vec3Q) : Vec3Q :=
  Vec3Q.sub v (Vec3Q.smul (2 * v.dot n) n)

/-- Modelled from the spec (the crate-local `vec.rs` defining `Axis` is
not under `src/`): the axis enumeration `X`, `Y`, `Z` with
`Axis::iter()` yielding the axes in that order, and `Vec3: Index<Axis>`
selecting the matching component. -/
inductive Axis where
  | X
  | Y
  | Z
deriving DecidableEq, Repr

/-- Component selection `vec[axis]` (see `Axis`). -/
def Vec3Q.axis (a : Vec3Q) : Axis → ℚ
  | .X => a.x
  | .Y => a.y
  | .Z => a.z

/-- `Interval` from `src/interval.rs`: a `min`/`max` pair of `f64`. -/
structure IntervalF where
  min : F
  max : F
deriving DecidableEq, Repr

/-- `Interval::new`. -/
def IntervalF.new (min max : F) : IntervalF := ⟨min, max⟩

/-- `Interval::EMPTY` (`min = +∞`, `max = -∞`). -/
def IntervalF.EMPTY : IntervalF := ⟨.posInf, .negInf⟩

/-- `Interval::UNIVERSE` (`min = -∞`, `max = +∞`). -/
def IntervalF.UNIVERSE : IntervalF := ⟨.negInf, .posInf⟩

/-- `Interval::from_intervals`: the union (componentwise min/max). -/
def IntervalF.from_intervals (a b : IntervalF) : IntervalF :=
  ⟨if F.le a.min b.min then a.min else b.min,
   if F.le b.max a.max then a.max else b.max⟩

/-- `Interval::size`: `max - min`. -/
def IntervalF.size (i : IntervalF) : F := F.sub i.max i.min

/-- `Interval::contains`: `min <= x && x <= max`. -/
def IntervalF.contains (i : IntervalF) (x : F) : Bool :=
  F.le i.min x && F.le x i.max

/-- `Interval::surrounds`: `min < x && x < max`. -/
def IntervalF.surrounds (i : IntervalF) (x : F) : Bool :=
  F.lt i.min x && F.lt x i.max

/-- `Interval::clamp`. -/
def IntervalF.clamp (i : IntervalF) (x : F) : F :=
  if F.lt x i.min then i.min else if F.lt i.max x then i.max else x

/-- `Interval::expand`: pad by `delta / 2` on each side. -/
def IntervalF.expand (i : IntervalF) (delta : ℚ) : IntervalF :=
  ⟨F.sub i.min (.val (delta / 2)), F.add i.max (.val (delta / 2))⟩

/-- `impl Default for Interval` (the empty interval). -/
def IntervalF.default : IntervalF := IntervalF.EMPTY

/-- `pad_to_minimums` from `crates/ray_tracer/src/aabb.rs` with
`delta = 0.0001` (modelled exactly as `1/10000`). -/
def pad_to_minimums (interval : IntervalF) : IntervalF :=
  if F.lt interval.size (.val (1 / 10000)) then interval.expand (1 / 10000)
  else interval

/-- `AABB` from `crates/ray_tracer/src/aabb.rs`: one interval per axis. -/
structure AABBF where
  x : IntervalF
  y : IntervalF
  z : IntervalF
deriving DecidableEq, Repr

/-- `AABB::new`: pads each axis interval to the minimum size. -/
def AABBF.new (x y z : IntervalF) : AABBF :=
  ⟨pad_to_minimums x, pad_to_minimums y, pad_to_minimums z⟩

/-- `AABB::EMPTY`. -/
def AABBF.EMPTY : AABBF :=
  AABBF.new IntervalF.EMPTY IntervalF.EMPTY IntervalF.EMPTY

/-- `AABB::UNIVERSE`. -/
def AABBF.UNIVERSE : AABBF :=
  AABBF.new IntervalF.UNIVERSE IntervalF.UNIVERSE IntervalF.UNIVERSE

/-- `AABB::from_points`: treats the two points as extrema, sorting each
coordinate pair, then pads. -/
def AABBF.from_points (a b : Vec3Q) : AABBF :=
  ⟨pad_to_minimums ⟨.val (min a.x b.x), .val (max a.x b.x)⟩,
   pad_to_minimums ⟨.val (min a.y b.y), .val (max a.y b.y)⟩,
   pad_to_minimums ⟨.val (min a.z b.z), .val (max a.z b.z)⟩⟩

/-- `AABB::from_boxes`: componentwise interval union (no padding). -/
def AABBF.from_boxes (box0 box1 : AABBF) : AABBF :=
  ⟨IntervalF.from_intervals box0.x box1.x,
   IntervalF.from_intervals box0.y box1.y,
   IntervalF.from_intervals box0.z box1.z⟩

/-- `impl Default for AABB` (derived: each interval defaults to empty). -/
def AABBF.default : AABBF :=
  ⟨IntervalF.default, IntervalF.default, IntervalF.default⟩

/-- `AABB::axis_interval`. -/
def AABBF.axis_interval (b : AABBF) : Axis → IntervalF
  | .X => b.x
  | .Y => b.y
  | .Z => b.z

/-- `AABB::longest_axis`: nested strict comparisons of the axis sizes. -/
def AABBF.longest_axis (b : AABBF) : Axis :=
  if F.lt b.y.size b.x.size then
    (if F.lt b.z.size b.x.size then Axis.X else Axis.Z)
  else if F.lt b.z.size b.y.size then Axis.Y
  else Axis.Z

/-- `Ray` from `src/ray.rs`. -/
structure RayQ where
  orig : Vec3Q
  dir : Vec3Q
  tm : ℚ
deriving DecidableEq, Repr

/-- `Ray::new` (time 0). -/
def RayQ.new (origin direction : Vec3Q) : RayQ := ⟨origin, direction, 0⟩

/-- `Ray::new_with_time`. -/
def RayQ.newWithTime (origin direction : Vec3Q) (time : ℚ) : RayQ :=
  ⟨origin, direction, time⟩

/-- `Ray::at`: `orig + t * dir`. -/
def RayQ.at (r : RayQ) (t : ℚ) : Vec3Q :=
  Vec3Q.add r.orig (Vec3Q.smul t r.dir)

/-- One axis of the slab test in `AABB::hit`: tighten the running
`ray_t` interval by the entry/exit times of the slab `ax`. -/
def slabAxis (ax : IntervalF) (o d : ℚ) (rt : IntervalF) : IntervalF :=
  let adinv := F.div (.val 1) (.val d)
  let t0 := F.mul (F.sub ax.min (.val o)) adinv
  let t1 := F.mul (F.sub ax.max (.val o)) adinv
  if F.lt t0 t1 then
    ⟨if F.lt rt.min t0 then t0 else rt.min,
     if F.lt t1 rt.max then t1 else rt.max⟩
  else
    ⟨if F.lt rt.min t1 then t1 else rt.min,
     if F.lt t0 rt.max then t0 else rt.max⟩

/-- `AABB::hit` from `crates/ray_tracer/src/aabb.rs`: the slab test over
the axes in `Axis::iter()` order (X, Y, Z), returning early when the
running interval becomes empty (`max <= min`). -/
def AABBF.hit (b : AABBF) (r : RayQ) (ray_t : IntervalF) : Bool :=
  let rt1 := slabAxis b.x r.orig.x r.dir.x ray_t
  if F.le rt1.max rt1.min then false else
  let rt2 := slabAxis b.y r.orig.y r.dir.y rt1
  if F.le rt2.max rt2.min then false else
  let rt3 := slabAxis b.z r.orig.z r.dir.z rt2
  if F.le rt3.max rt3.min then false else true

/-- The payload of `HitRecord` from `src/hittable.rs` except the
material reference: hit point, face-corrected normal, parameter `t` and
the front-face flag.  The `u`/`v` surface coordinates are omitted: the
sphere derives them through `acos`/`atan2`, which have no exact rational
model, and no claim mentions them. -/
structure HitData where
  p : Vec3Q
  normal : Vec3Q
  t : ℚ
  front_face : Bool
deriving DecidableEq, Repr

/-- `HitRecord`, generic over the material representation `M` (the Rust
record holds an `Arc<DynMaterial>`; claims compare materials by
identity, so `M = ℕ` names materials where needed). -/
structure HitRec (M : Type) where
  data : HitData
  mat : M
deriving DecidableEq, Repr

/-- A primitive behind the `Hittable` trait: its `hit` method and its
precomputed bounding box (`bounding_box`). -/
structure Prim (M : Type) where
  hit : RayQ → IntervalF → Option (HitRec M)
  bbox : AABBF

/-- The closest-so-far upper bound maintained by `HittableList::hit`:
the original `ray_t.max` until a hit is found, then the hit's `t`. -/
def accMax {M : Type} (hi : F) : Option (HitRec M) → F
  | none => hi
  | some rec => .val rec.data.t

/-- The loop body of `HittableList::hit` (`src/hittable.rs`): scan the
objects in order, querying each with `Interval::new(ray_t.min,
closest_so_far)` and keeping the latest (hence closest) hit. -/
def hitListGo {M : Type} (r : RayQ) (lo hi : F) :
    List (Prim M) → Option (HitRec M) → Option (HitRec M)
  | [], acc => acc
  | o :: rest, acc =>
    match o.hit r ⟨lo, accMax hi acc⟩ with
    | some rec => hitListGo r lo hi rest (some rec)
    | none => hitListGo r lo hi rest acc

/-- `HittableList::hit`: the linear scan with a shrinking upper bound. -/
def HittableList.hit {M : Type} (objs : List (Prim M)) (r : RayQ)
    (ray_t : IntervalF) : Option (HitRec M) :=
  hitListGo r ray_t.min ray_t.max objs none

/-- The tree of `BVHNode`s from `src/bvh.rs`: a `BVHNode` holds exactly
two children (each a leaf primitive or another node) and a precomputed
box. -/
inductive HTree (M : Type) where
  | prim (p : Prim M)
  | node (left right : HTree M) (bbox : AABBF)

/-- `BVHNode::hit`: reject by the slab test, probe the left child over
the full interval, then the right child with the upper bound tightened
to the left hit's `t`, and keep the closer result. -/
def HTree.hit {M : Type} : HTree M → RayQ → IntervalF → Option (HitRec M)
  | .prim p, r, ray_t => p.hit r ray_t
  | .node l rc bbox, r, ray_t =>
    if AABBF.hit bbox r ray_t then
      let hit_left := l.hit r ray_t
      let right_endpoint :=
        match hit_left with
        | some rec => F.val rec.data.t
        | none => ray_t.max
      let hit_right := rc.hit r (IntervalF.new ray_t.min right_endpoint)
      match hit_left, hit_right with
      | some lhs, some rhs =>
        some (if rhs.data.t < lhs.data.t then rhs else lhs)
      | some lhs, none => some lhs
      | none, some rhs => some rhs
      | none, none => none
    else none

/-- The box accumulation at the top of `BVHNode::from_slice`: fold the
objects' boxes together starting from `AABB::EMPTY`. -/
def bboxFold {M : Type} (objs : List (Prim M)) : AABBF :=
  objs.foldl (fun acc o => AABBF.from_boxes acc o.bbox) AABBF.EMPTY

/-- Insert `a` into `l` in front of the first element not below it;
together with `stableSort` this is a stable insertion sort, modelling
Rust's stable `sort_by` (structural recursion, so the kernel can
evaluate it; the library `mergeSort` is well-founded and cannot). -/
def insertLe {A : Type} (le : A → A → Bool) (a : A) : List A → List A
  | [] => [a]
  | b :: l => if le a b then a :: b :: l else b :: insertLe le a l

/-- Stable insertion sort (see `insertLe`): later elements are inserted
first, and an element is placed before every element of equal key that
was inserted earlier, so elements with equal keys keep their original
relative order — exactly the stability contract of `sort_by`. -/
def stableSort {A : Type} (le : A → A → Bool) : List A → List A
  | [] => []
  | a :: l => insertLe le a (stableSort le l)

theorem insertLe_perm {A : Type} (le : A → A → Bool) (a : A) :
    ∀ l : List A, (insertLe le a l).Perm (a :: l) := by
  intro l
  induction l with
  | nil => exact List.Perm.refl _
  | cons b l ih =>
    simp only [insertLe]
    split
    · exact List.Perm.refl _
    · exact (List.Perm.cons b ih).trans (List.Perm.swap a b l)

theorem stableSort_perm {A : Type} (le : A → A → Bool) :
    ∀ l : List A, (stableSort le l).Perm l := by
  intro l
  induction l with
  | nil => exact List.Perm.refl _
  | cons a l ih =>
    exact (insertLe_perm le a (stableSort le l)).trans (ih.cons a)

/-- `box_compare` as a sort predicate: order by the bounding box's
minimum coordinate along `axis` (`f64::total_cmp`; all box bounds in
use are non-NaN, where `total_cmp` agrees with the numeric order). -/
def boxLe {M : Type} (axis : Axis) (a b : Prim M) : Bool :=
  F.le (a.bbox.axis_interval axis).min (b.bbox.axis_interval axis).min

/-- `BVHNode::from_slice`, fuelled.  One or two objects become the two
children directly (a single object is duplicated); otherwise the
objects are sorted along the longest axis of the combined box
(`sort_by(box_compare)`, a stable sort, modelled by `stableSort`) and
split at `len / 2`.  The Rust recursion diverges on an empty slice;
`none` models that (and fuel exhaustion, which never occurs for
`fuel ≥ length`, as proved below). -/
def fromSliceF {M : Type} : ℕ → List (Prim M) → Option (HTree M)
  | 0, _ => none
  | _ + 1, [] => none
  | _ + 1, [a] => some (.node (.prim a) (.prim a) (bboxFold [a]))
  | _ + 1, [a, b] => some (.node (.prim a) (.prim b) (bboxFold [a, b]))
  | fuel + 1, o1 :: o2 :: o3 :: rest =>
    let objs := o1 :: o2 :: o3 :: rest
    let bbox := bboxFold objs
    let axis := bbox.longest_axis
    let sorted := stableSort (boxLe axis) objs
    let mid := objs.length / 2
    match fromSliceF fuel (sorted.take mid), fromSliceF fuel (sorted.drop mid) with
    | some l, some rc => some (.node l rc bbox)
    | _, _ => none

/-- `Sphere` from `src/sphere.rs`, generic over the material type. -/
structure Sphere (M : Type) where
  center : RayQ
  radius : ℚ
  mat : M
  bbox : AABBF

/-- `Sphere::new`: clamps the radius to `max(radius, 0.0)`, stores a
zero-direction centre ray, and precomputes the box from the two
extremal corners. -/
def Sphere.new {M : Type} (static_center : Vec3Q) (radius : ℚ) (mat : M) :
    Sphere M :=
  let radius := max radius 0
  let rvec : Vec3Q := ⟨radius, radius, radius⟩
  let bbox := AABBF.from_points (Vec3Q.sub static_center rvec)
    (Vec3Q.add static_center rvec)
  ⟨RayQ.new static_center Vec3Q.ZERO, radius, mat, bbox⟩

/-- `Sphere::new_moving`: same clamp; the centre ray runs from
`center_1` to `center_2`, and the box is the union of the boxes at the
two endpoints. -/
def Sphere.new_moving {M : Type} (center_1 center_2 : Vec3Q) (radius : ℚ)
    (mat : M) : Sphere M :=
  let radius := max radius 0
  let center := RayQ.new center_1 (Vec3Q.sub center_2 center_1)
  let rvec : Vec3Q := ⟨radius, radius, radius⟩
  let box1 := AABBF.from_points (Vec3Q.sub (center.at 0) rvec)
    (Vec3Q.add (center.at 0) rvec)
  let box2 := AABBF.from_points (Vec3Q.sub (center.at 1) rvec)
    (Vec3Q.add (center.at 1) rvec)
  ⟨center, radius, mat, AABBF.from_boxes box1 box2⟩

/-- `Sphere::hit` (`impl Hittable for Sphere`): half-b quadratic,
nearest root inside the open interval, falling back to the larger root.
`f64::sqrt` is modelled by `qsqrt`; the `u`/`v` computation
(`acos`/`atan2`) is omitted with the `HitData` fields. -/
def Sphere.hit {M : Type} (s : Sphere M) (r : RayQ) (ray_t : IntervalF) :
    Option (HitRec M) :=
  let current_center := s.center.at r.tm
  let oc := Vec3Q.sub current_center r.orig
  let a := r.dir.length_squared
  let h := r.dir.dot oc
  let c := oc.length_squared - s.radius * s.radius
  let discriminant := h * h - a * c
  if discriminant < 0 then none
  else
    let sqrtd := qsqrt discriminant
    let root1 := (h - sqrtd) / a
    let root := if ray_t.surrounds (.val root1) then root1 else (h + sqrtd) / a
    if ray_t.surrounds (.val root) then
      let t := root
      let p := r.at t
      let outward_normal := (Vec3Q.sub p current_center).divs s.radius
      let front_face := r.dir.dot outward_normal < 0
      let normal := if front_face then outward_normal else outward_normal.neg
      some ⟨⟨p, normal, t, front_face⟩, s.mat⟩
    else none

/-- View a sphere as a `Hittable` (its `hit` and `bounding_box`). -/
def Prim.ofSphere {M : Type} (s : Sphere M) : Prim M := ⟨s.hit, s.bbox⟩

/-- `ScatterRecord` from `src/material.rs`. -/
structure ScatterRec where
  attenuation : Vec3Q
  scattered : RayQ
deriving DecidableEq, Repr

/-- `Metal` from `crates/ray_tracer/src/material.rs`. -/
structure Metal where
  name : String
  albedo : Vec3Q
  fuzz : ℚ
deriving DecidableEq, Repr

/-- `Metal::new`: stores `fuzz.min(1.0)` (both the `src/material.rs` and
the `crates/ray_tracer` constructor use exactly this expression). -/
def Metal.new (name : String) (albedo : Vec3Q) (fuzz : ℚ) : Metal :=
  ⟨name, albedo, min fuzz 1⟩

/-- `Metal::scatter`: reflect, renormalize, perturb by
`fuzz * random_unit_vector` (the RNG draw is the explicit `randUnit`
argument), and absorb when the result leaves the surface on the wrong
side. -/
def Metal.scatter (m : Metal) (randUnit : Vec3Q) (r_in : RayQ)
    (rec : HitData) : Option ScatterRec :=
  let reflected := Vec3Q.reflect r_in.dir rec.normal
  let reflected := Vec3Q.add reflected.unit_vector (Vec3Q.smul m.fuzz randUnit)
  let scattered := RayQ.newWithTime rec.p reflected r_in.tm
  if scattered.dir.dot rec.normal > 0 then
    some ⟨m.albedo, scattered⟩
  else none

/-- `Lambertian::scatter`: normal plus a random unit vector (the RNG
draw is the explicit `randUnit` argument), with the near-zero fallback;
`texValue` is the texture sample `tex.value(u, v, p)`. -/
def Lambertian.scatter (texValue : Vec3Q) (randUnit : Vec3Q) (r_in : RayQ)
    (rec : HitData) : Option ScatterRec :=
  let scatter_direction := Vec3Q.add rec.normal randUnit
  let scatter_direction :=
    if scatter_direction.near_zero then rec.normal else scatter_direction
  some ⟨texValue, RayQ.newWithTime rec.p scatter_direction r_in.tm⟩

/-- A material behind the `DynMaterial` trait object, as `ray_color`
sees it: its `scatter` method (the record argument is the data part of
the hit record; none of the scatter implementations read `rec.mat`). -/
structure MatF where
  scatter : RayQ → HitData → Option ScatterRec

/-- The sky gradient at the bottom of `Camera::ray_color`: a linear
interpolation between white and sky blue driven by the unit direction's
`y` component. -/
def background (r : RayQ) : Vec3Q :=
  let unit_direction := r.dir.unit_vector
  let a := (1 / 2 : ℚ) * (unit_direction.y + 1)
  Vec3Q.add (Vec3Q.smul (1 - a) ⟨1, 1, 1⟩) (Vec3Q.smul a ⟨1 / 2, 7 / 10, 1⟩)

/-- `Camera::ray_color` from `crates/ray_tracer/src/camera.rs`: black at
exhausted depth, otherwise query the world over `(0.001, ∞)`, recurse
through the scatter multiplying attenuations, and fall back to the sky
gradient on a miss.  `depth` is the Rust `i32`. -/
def rayColor (world : List (Prim MatF)) (r : RayQ) (depth : ℤ) : Vec3Q :=
  if depth ≤ 0 then Vec3Q.ZERO
  else
    match HittableList.hit world r ⟨.val (1 / 1000), .posInf⟩ with
    | some rec =>
      match rec.mat.scatter r rec.data with
      | some scatter =>
        Vec3Q.cmul scatter.attenuation (rayColor world scatter.scattered (depth - 1))
      | none => Vec3Q.ZERO
    | none => background r
termination_by depth.toNat
decreasing_by
  omega

/-- `linear_to_gamma` from `src/color.rs` (`f64::sqrt` as `qsqrt`). -/
def linear_to_gamma (linear_component : ℚ) : ℚ :=
  if linear_component > 0 then qsqrt linear_component else 0

/-- `INTENSITY` from `src/color.rs`: the clamp interval `[0, 0.999]`. -/
def INTENSITY : IntervalF := IntervalF.new (.val 0) (.val (999 / 1000))

/-- Rust `as i32` on a (small, finite) `f64`: truncation toward zero. -/
def asI32 (q : ℚ) : ℤ := if 0 ≤ q then q.floor else -((-q).floor)

/-- `Color::write_color`: gamma-correct each channel, clamp into
`INTENSITY`, scale by 256, truncate, and write the three integers as a
space-separated line. -/
def writeColorLine (c : Vec3Q) : String :=
  let r := linear_to_gamma c.x
  let g := linear_to_gamma c.y
  let b := linear_to_gamma c.z
  let rbyte := asI32 (256 * (INTENSITY.clamp (.val r)).toQ)
  let gbyte := asI32 (256 * (INTENSITY.clamp (.val g)).toQ)
  let bbyte := asI32 (256 * (INTENSITY.clamp (.val b)).toQ)
  toString rbyte ++ " " ++ toString gbyte ++ " " ++ toString bbyte

/-- `TextureSpec` from `crates/ray_tracer/src/scene_loader.rs`. -/
inductive TextureSpec where
  | SolidColor (albedo : Vec3Q)
  | Checker (scale : ℚ) (even odd : String)
  | Image (path : String)
  | Perlin (scale : ℚ)
deriving DecidableEq, Repr

/-- `MaterialSpec` from `crates/ray_tracer/src/scene_loader.rs`. -/
inductive MaterialSpec where
  | Lambertian (texture : String)
  | Metal (albedo : Vec3Q) (fuzz : ℚ)
  | Dielectric (refraction_index : ℚ)
deriving DecidableEq, Repr

/-- `ShapeSpec` from `crates/ray_tracer/src/scene_loader.rs` (the Rust
variant named `List` is `ListOf` here, to avoid shadowing Lean's
`List`). -/
inductive ShapeSpec where
  | Circle (radius : ℚ) (center : RayQ) (material : String)
  | Quad (q u v : Vec3Q) (material : String)
  | ListOf (shapes : List ShapeSpec)
  | BVH (left right : ShapeSpec)

/-- A built texture object (`Arc<DynTexture>`): the constructor calls
made by `TextureSpec::build`, with their arguments. -/
inductive BuiltTexture where
  | solid (name : String) (albedo : Vec3Q)
  | checker (scale : ℚ) (even odd : BuiltTexture)
  | image (path : String)
  | noise (scale : ℚ)
deriving DecidableEq, Repr

/-- A built material object (`Arc<DynMaterial>`): the constructor calls
made by `MaterialSpec::build`. -/
inductive BuiltMaterial where
  | lambertian (tex : BuiltTexture)
  | metal (m : Metal)
  | dielectric (name : String) (refraction_index : ℚ)
deriving DecidableEq, Repr

/-- A built shape object (`Arc<DynHittable>`): the constructor calls
made by `ShapeSpec::build` (the sphere through `Sphere::new_moving`;
`BVHNode::from_slice` on the two-element slice `[left, right]` places
the two children directly, recorded by `bvh`). -/
inductive BuiltShape where
  | sphere (s : Sphere BuiltMaterial)
  | quad (q u v : Vec3Q) (mat : BuiltMaterial)
  | listOf (shapes : List BuiltShape)
  | bvh (left right : BuiltShape)

/-- How a scene load ends when it does not produce a scene:
`panic` models a Rust panic — in the loader, indexing a `HashMap` with
a missing key (`materials[&material]`, `textures[&even]`, …) aborts the
process; `err` models a typed `anyhow::Error` returned to the caller. -/
inductive LoadErr where
  | panic
  | err (msg : String)
deriving DecidableEq, Repr

/-- First-match lookup in an association list, modelling
`HashMap::get`-style access (insertions below shadow at the front, so
first match agrees with `HashMap` overwrite semantics). -/
def alistFind {A : Type} (key : String) : List (String × A) → Option A
  | [] => none
  | (k, v) :: rest => if k = key then some v else alistFind key rest

/-- `TextureSpec::build`: checker children are fetched with
`textures[&even]` / `textures[&odd]`, which panics when the name is
absent; image decoding (`ImageTexture::new(&path)?`) is the external
`loadImage` collaborator, whose failure is a typed error. -/
def TextureSpec.build (loadImage : String → Except String Unit)
    (name : String) (textures : List (String × BuiltTexture)) :
    TextureSpec → Except LoadErr BuiltTexture
  | .SolidColor albedo => .ok (.solid name albedo)
  | .Checker scale even odd =>
    match alistFind even textures, alistFind odd textures with
    | some e, some o => .ok (.checker scale e o)
    | _, _ => .error .panic
  | .Image path =>
    match loadImage path with
    | .ok _ => .ok (.image path)
    | .error e => .error (.err e)
  | .Perlin scale => .ok (.noise scale)

/-- `MaterialSpec::build`: the Lambertian texture is fetched with
`textures[&texture]`, which panics when the name is absent (the Rust
signature is infallible — it has no typed error path at all). -/
def MaterialSpec.build (name : String)
    (textures : List (String × BuiltTexture)) :
    MaterialSpec → Except LoadErr BuiltMaterial
  | .Lambertian texture =>
    match alistFind texture textures with
    | some tex => .ok (.lambertian tex)
    | none => .error .panic
  | .Metal albedo fuzz => .ok (.metal (Metal.new name albedo fuzz))
  | .Dielectric refraction_index => .ok (.dielectric name refraction_index)

mutual

/-- `ShapeSpec::build`: the material is fetched with
`materials[&material]`, which panics when the name is absent (this
function too has no typed error path in Rust). -/
def ShapeSpec.build (materials : List (String × BuiltMaterial)) :
    ShapeSpec → Except LoadErr BuiltShape
  | .Circle radius center material =>
    match alistFind material materials with
    | some mat =>
      .ok (.sphere (Sphere.new_moving center.orig
        (Vec3Q.add center.orig center.dir) radius mat))
    | none => .error .panic
  | .Quad q u v material =>
    match alistFind material materials with
    | some mat => .ok (.quad q u v mat)
    | none => .error .panic
  | .ListOf shapes =>
    match buildShapeList materials shapes with
    | .ok built => .ok (.listOf built)
    | .error e => .error e
  | .BVH left right =>
    match ShapeSpec.build materials left, ShapeSpec.build materials right with
    | .ok l, .ok rc => .ok (.bvh l rc)
    | .error e, _ => .error e
    | _, .error e => .error e

/-- The `HittableList`-filling loop inside the `ShapeSpec::List` arm of
`build`: build each nested shape in order, the first panic aborting. -/
def buildShapeList (materials : List (String × BuiltMaterial)) :
    List ShapeSpec → Except LoadErr (List BuiltShape)
  | [] => .ok []
  | s :: rest =>
    match ShapeSpec.build materials s with
    | .error e => .error e
    | .ok b =>
      match buildShapeList materials rest with
      | .ok bs => .ok (b :: bs)
      | .error e => .error e

end

/-- `SceneFile` from `crates/ray_tracer/src/scene_loader.rs`. -/
structure SceneFile where
  textures : List (String × TextureSpec)
  materials : List (String × MaterialSpec)
  shapes : List ShapeSpec

/-- The texture-table loop of `SceneFile::into_list` (each `build`
error propagates through `?`; each success is inserted, shadowing). -/
def buildTextures (loadImage : String → Except String Unit) :
    List (String × TextureSpec) → List (String × BuiltTexture) →
    Except LoadErr (List (String × BuiltTexture))
  | [], acc => .ok acc
  | (name, spec) :: rest, acc =>
    match spec.build loadImage name acc with
    | .ok tex => buildTextures loadImage rest ((name, tex) :: acc)
    | .error e => .error e

/-- The material-table loop of `SceneFile::into_list` (the Rust build is
infallible-typed; a panic still aborts the loop). -/
def buildMaterials (textures : List (String × BuiltTexture)) :
    List (String × MaterialSpec) → List (String × BuiltMaterial) →
    Except LoadErr (List (String × BuiltMaterial))
  | [], acc => .ok acc
  | (name, spec) :: rest, acc =>
    match spec.build name textures with
    | .ok mat => buildMaterials textures rest ((name, mat) :: acc)
    | .error e => .error e

/-- `SceneFile::into_list`: build the texture table, the material table,
then every shape, collecting the shapes into the world list. -/
def SceneFile.into_list (loadImage : String → Except String Unit)
    (sf : SceneFile) : Except LoadErr (List BuiltShape) :=
  match buildTextures loadImage sf.textures [] with
  | .error e => .error e
  | .ok textures =>
    match buildMaterials textures sf.materials [] with
    | .error e => .error e
    | .ok materials =>
      match buildShapeList materials sf.shapes with
      | .ok world => .ok world
      | .error e => .error e

/-! ### Order and arithmetic facts about `F` -/

theorem F.lt_val_val {a b : ℚ} : F.lt (.val a) (.val b) = true ↔ a < b := by
  simp [F.lt]

theorem F.le_val_val {a b : ℚ} : F.le (.val a) (.val b) = true ↔ a ≤ b := by
  simp [F.le, F.lt]

theorem F.lt_irrefl (a : F) : F.lt a a = false := by
  cases a <;> simp [F.lt]

theorem F.lt_asymm {a b : F} (h : F.lt a b = true) : F.lt b a = false := by
  cases a <;> cases b <;> simp_all [F.lt] <;> linarith

theorem F.lt_trans {a b c : F} (h1 : F.lt a b = true) (h2 : F.lt b c = true) :
    F.lt a c = true := by
  cases a <;> cases b <;> cases c <;> simp_all [F.lt] <;> linarith

theorem F.le_refl (a : F) : F.le a a = true := by
  cases a <;> simp [F.le, F.lt]

theorem F.le_of_lt {a b : F} (h : F.lt a b = true) : F.le a b = true := by
  cases a <;> cases b <;> simp_all [F.le, F.lt] <;> linarith

theorem F.le_trans {a b c : F} (h1 : F.le a b = true) (h2 : F.le b c = true) :
    F.le a c = true := by
  cases a <;> cases b <;> cases c <;> simp_all [F.le, F.lt] <;> linarith

theorem F.lt_of_le_of_lt {a b c : F} (h1 : F.le a b = true)
    (h2 : F.lt b c = true) : F.lt a c = true := by
  cases a <;> cases b <;> cases c <;> simp_all [F.le, F.lt] <;> linarith

theorem F.lt_of_lt_of_le {a b c : F} (h1 : F.lt a b = true)
    (h2 : F.le b c = true) : F.lt a c = true := by
  cases a <;> cases b <;> cases c <;> simp_all [F.le, F.lt] <;> linarith

theorem F.not_le_iff_lt {a b : F} : F.le a b = false ↔ F.lt b a = true := by
  simp [F.le]

theorem F.le_of_not_lt {a b : F} (h : F.lt a b = false) : F.le b a = true := by
  simp [F.le, h]

theorem F.sub_le_sub {a a2 b b2 : F} (h1 : F.le a a2 = true)
    (h2 : F.le b2 b = true) : F.le (F.sub a b) (F.sub a2 b2) = true := by
  cases a <;> cases a2 <;> cases b <;> cases b2 <;>
    simp_all [F.le, F.lt, F.sub] <;> linarith

/-! ### Interval and box lemmas -/

theorem IntervalF.from_intervals_empty_left (j : IntervalF) :
    IntervalF.from_intervals IntervalF.EMPTY j = j := by
  obtain ⟨jmin, jmax⟩ := j
  cases jmin <;> cases jmax <;> simp [IntervalF.from_intervals, IntervalF.EMPTY, F.le, F.lt]

theorem IntervalF.from_intervals_min_le_left (a b : IntervalF) :
    F.le (IntervalF.from_intervals a b).min a.min = true := by
  unfold IntervalF.from_intervals
  dsimp only
  split
  · exact F.le_refl _
  · next h => exact F.le_of_lt (F.not_le_iff_lt.mp (Bool.eq_false_iff.mpr (by simp_all)))

theorem IntervalF.from_intervals_min_le_right (a b : IntervalF) :
    F.le (IntervalF.from_intervals a b).min b.min = true := by
  unfold IntervalF.from_intervals
  dsimp only
  split
  · next h => exact h
  · exact F.le_refl _

theorem IntervalF.left_le_from_intervals_max (a b : IntervalF) :
    F.le a.max (IntervalF.from_intervals a b).max = true := by
  unfold IntervalF.from_intervals
  dsimp only
  split
  · exact F.le_refl _
  · next h => exact F.le_of_lt (F.not_le_iff_lt.mp (Bool.eq_false_iff.mpr (by simp_all)))

theorem IntervalF.right_le_from_intervals_max (a b : IntervalF) :
    F.le b.max (IntervalF.from_intervals a b).max = true := by
  unfold IntervalF.from_intervals
  dsimp only
  split
  · next h => exact h
  · exact F.le_refl _

theorem AABBF.from_boxes_empty_left (b : AABBF) :
    AABBF.from_boxes AABBF.EMPTY b = b := by
  obtain ⟨bx, by2, bz⟩ := b
  simp only [AABBF.from_boxes, AABBF.EMPTY, AABBF.new, pad_to_minimums,
    IntervalF.size, IntervalF.EMPTY, IntervalF.expand, F.sub, F.add, F.lt]
  norm_num
  exact ⟨IntervalF.from_intervals_empty_left bx,
    IntervalF.from_intervals_empty_left by2,
    IntervalF.from_intervals_empty_left bz⟩

/-! ### The `Hittable` contract and the slab test -/

/-- All three components of the ray direction are nonzero (keeps the
slab test away from the IEEE `0 * ∞` cases that have no rational
model). -/
def dirNonzero (r : RayQ) : Prop :=
  r.dir.x ≠ 0 ∧ r.dir.y ≠ 0 ∧ r.dir.z ≠ 0

/-- All six bounds of the box are finite. -/
def finiteBox (b : AABBF) : Bool :=
  b.x.min.isFinite && b.x.max.isFinite && b.y.min.isFinite &&
  b.y.max.isFinite && b.z.min.isFinite && b.z.max.isFinite

/-- The point lies strictly inside the box on every axis. -/
def insideStrict (pt : Vec3Q) (b : AABBF) : Bool :=
  F.lt b.x.min (.val pt.x) && F.lt (.val pt.x) b.x.max &&
  F.lt b.y.min (.val pt.y) && F.lt (.val pt.y) b.y.max &&
  F.lt b.z.min (.val pt.z) && F.lt (.val pt.z) b.z.max

/-- The `Hittable` contract satisfied by the geometric primitives, on
which the BVH/linear-scan comparison rests:
`bounded` — a reported hit lies strictly inside the queried interval
(the primitives test roots with `Interval::surrounds`);
`filter_down` — shrinking the upper bound keeps the same hit when it
still fits and discards it otherwise (the primitives report the nearest
root past `lo`, so tightening `hi` cannot change which root is nearest);
`inside` — the reported hit point lies strictly inside the primitive's
bounding box;
`finite` — the bounding box is finite. -/
structure PrimWF {M : Type} (p : Prim M) : Prop where
  bounded : ∀ r lo hi rec, p.hit r ⟨lo, hi⟩ = some rec →
    F.lt lo (.val rec.data.t) = true ∧ F.lt (.val rec.data.t) hi = true
  filter_down : ∀ r lo hi hi2, F.le hi2 hi = true →
    p.hit r ⟨lo, hi2⟩ =
      (p.hit r ⟨lo, hi⟩).filter (fun rec => F.lt (.val rec.data.t) hi2)
  inside : ∀ r lo hi rec, p.hit r ⟨lo, hi⟩ = some rec →
    insideStrict (r.at rec.data.t) p.bbox = true
  finite : finiteBox p.bbox = true

theorem lt_mul_one_div_of_neg {c t d : ℚ} (hd : d < 0) (h : c < t * d) :
    t < c * (1 / d) := by
  have h2 := mul_lt_mul_of_neg_right h (one_div_neg.mpr hd)
  have h3 : t * d * (1 / d) = t := by
    rw [mul_one_div, mul_div_assoc, div_self hd.ne, mul_one]
  rw [h3] at h2
  exact h2

theorem mul_one_div_lt_of_neg {c t d : ℚ} (hd : d < 0) (h : t * d < c) :
    c * (1 / d) < t := by
  have h2 := mul_lt_mul_of_neg_right h (one_div_neg.mpr hd)
  have h3 : t * d * (1 / d) = t := by
    rw [mul_one_div, mul_div_assoc, div_self hd.ne, mul_one]
  rw [h3] at h2
  exact h2

theorem mul_one_div_lt_of_pos {c t d : ℚ} (hd : 0 < d) (h : c < t * d) :
    c * (1 / d) < t := by
  have h2 := mul_lt_mul_of_pos_right h (one_div_pos.mpr hd)
  have h3 : t * d * (1 / d) = t := by
    rw [mul_one_div, mul_div_assoc, div_self hd.ne', mul_one]
  rw [h3] at h2
  exact h2

theorem lt_mul_one_div_of_pos {c t d : ℚ} (hd : 0 < d) (h : t * d < c) :
    t < c * (1 / d) := by
  have h2 := mul_lt_mul_of_pos_right h (one_div_pos.mpr hd)
  have h3 : t * d * (1 / d) = t := by
    rw [mul_one_div, mul_div_assoc, div_self hd.ne', mul_one]
  rw [h3] at h2
  exact h2

theorem slabAxis_straddle {mn mx o d t : ℚ} {rt : IntervalF} (hd : d ≠ 0)
    (h1 : mn < o + t * d) (h2 : o + t * d < mx)
    (hmin : F.lt rt.min (.val t) = true)
    (hmax : F.lt (.val t) rt.max = true) :
    F.lt (slabAxis ⟨.val mn, .val mx⟩ o d rt).min (.val t) = true ∧
    F.lt (.val t) (slabAxis ⟨.val mn, .val mx⟩ o d rt).max = true := by
  unfold slabAxis
  simp only [F.div, F.sub, F.mul, if_neg hd]
  rcases hd.lt_or_lt with hneg | hpos
  · have hu : t < (mn - o) * (1 / d) := lt_mul_one_div_of_neg hneg (by linarith)
    have hv : (mx - o) * (1 / d) < t := mul_one_div_lt_of_neg hneg (by linarith)
    have hcmp : F.lt (.val ((mn - o) * (1 / d))) (.val ((mx - o) * (1 / d))) = false := by
      simp only [F.lt, decide_eq_false_iff_not, not_lt]
      linarith
    rw [if_neg (by rw [hcmp]; simp)]
    constructor
    · dsimp only
      split
      · exact F.lt_val_val.mpr hv
      · exact hmin
    · dsimp only
      split
      · exact F.lt_val_val.mpr hu
      · exact hmax
  · have hu : (mn - o) * (1 / d) < t := mul_one_div_lt_of_pos hpos (by linarith)
    have hv : t < (mx - o) * (1 / d) := lt_mul_one_div_of_pos hpos (by linarith)
    have hcmp : F.lt (.val ((mn - o) * (1 / d))) (.val ((mx - o) * (1 / d))) = true :=
      F.lt_val_val.mpr (by linarith)
    rw [if_pos hcmp]
    constructor
    · dsimp only
      split
      · exact F.lt_val_val.mpr hu
      · exact hmin
    · dsimp only
      split
      · exact F.lt_val_val.mpr hv
      · exact hmax

theorem F.isFinite_iff {a : F} : a.isFinite = true ↔ ∃ q, a = F.val q := by
  cases a <;> simp [F.isFinite]

theorem slab_of_inside {b : AABBF} {r : RayQ} {i : IntervalF} {t : ℚ}
    (hd : dirNonzero r) (hfin : finiteBox b = true)
    (hin : insideStrict (r.at t) b = true)
    (hmin : F.lt i.min (.val t) = true)
    (hmax : F.lt (.val t) i.max = true) : AABBF.hit b r i = true := by
  obtain ⟨hdx, hdy, hdz⟩ := hd
  obtain ⟨⟨xmin, xmax⟩, ⟨ymin, ymax⟩, ⟨zmin, zmax⟩⟩ := b
  simp only [finiteBox, Bool.and_eq_true] at hfin
  obtain ⟨⟨⟨⟨⟨f1, f2⟩, f3⟩, f4⟩, f5⟩, f6⟩ := hfin
  obtain ⟨mnx, rfl⟩ := F.isFinite_iff.mp f1
  obtain ⟨mxx, rfl⟩ := F.isFinite_iff.mp f2
  obtain ⟨mny, rfl⟩ := F.isFinite_iff.mp f3
  obtain ⟨mxy, rfl⟩ := F.isFinite_iff.mp f4
  obtain ⟨mnz, rfl⟩ := F.isFinite_iff.mp f5
  obtain ⟨mxz, rfl⟩ := F.isFinite_iff.mp f6
  simp only [insideStrict, RayQ.at, Vec3Q.add, Vec3Q.smul, Bool.and_eq_true,
    F.lt_val_val] at hin
  obtain ⟨⟨⟨⟨⟨hx1, hx2⟩, hy1⟩, hy2⟩, hz1⟩, hz2⟩ := hin
  have s1 := @slabAxis_straddle _ _ _ _ _ i hdx hx1 hx2 hmin hmax
  have s2 := slabAxis_straddle hdy hy1 hy2 s1.1 s1.2
  have s3 := slabAxis_straddle hdz hz1 hz2 s2.1 s2.2
  have g1 : F.le (slabAxis ⟨F.val mnx, F.val mxx⟩ r.orig.x r.dir.x i).max
      (slabAxis ⟨F.val mnx, F.val mxx⟩ r.orig.x r.dir.x i).min = false :=
    F.not_le_iff_lt.mpr (F.lt_trans s1.1 s1.2)
  have g2 : F.le (slabAxis ⟨F.val mny, F.val mxy⟩ r.orig.y r.dir.y
        (slabAxis ⟨F.val mnx, F.val mxx⟩ r.orig.x r.dir.x i)).max
      (slabAxis ⟨F.val mny, F.val mxy⟩ r.orig.y r.dir.y
        (slabAxis ⟨F.val mnx, F.val mxx⟩ r.orig.x r.dir.x i)).min = false :=
    F.not_le_iff_lt.mpr (F.lt_trans s2.1 s2.2)
  have g3 : F.le (slabAxis ⟨F.val mnz, F.val mxz⟩ r.orig.z r.dir.z
        (slabAxis ⟨F.val mny, F.val mxy⟩ r.orig.y r.dir.y
          (slabAxis ⟨F.val mnx, F.val mxx⟩ r.orig.x r.dir.x i))).max
      (slabAxis ⟨F.val mnz, F.val mxz⟩ r.orig.z r.dir.z
        (slabAxis ⟨F.val mny, F.val mxy⟩ r.orig.y r.dir.y
          (slabAxis ⟨F.val mnx, F.val mxx⟩ r.orig.x r.dir.x i))).min = false :=
    F.not_le_iff_lt.mpr (F.lt_trans s3.1 s3.2)
  simp only [AABBF.hit, g1, g2, g3, Bool.false_eq_true, if_false]

/-! ### The linear scan: structure lemmas -/

theorem hitListGo_append {M : Type} (r : RayQ) (lo hi : F)
    (A B : List (Prim M)) (acc : Option (HitRec M)) :
    hitListGo r lo hi (A ++ B) acc =
      hitListGo r lo hi B (hitListGo r lo hi A acc) := by
  induction A generalizing acc with
  | nil => rfl
  | cons o rest ih =>
    simp only [List.cons_append, hitListGo]
    cases h : o.hit r ⟨lo, accMax hi acc⟩ with
    | none => exact ih acc
    | some rec => exact ih (some rec)

theorem hitListGo_some {M : Type} (r : RayQ) (lo hi : F)
    (B : List (Prim M)) (a : HitRec M) :
    ∃ b, hitListGo r lo hi B (some a) = some b := by
  induction B generalizing a with
  | nil => exact ⟨a, rfl⟩
  | cons o rest ih =>
    simp only [hitListGo]
    cases h : o.hit r ⟨lo, accMax hi (some a)⟩ with
    | none => exact ih a
    | some rec => exact ih rec

theorem hitListGo_acc_hi {M : Type} (r : RayQ) (lo hi hi2 : F)
    (B : List (Prim M)) (a : HitRec M) :
    hitListGo r lo hi B (some a) = hitListGo r lo hi2 B (some a) := by
  induction B generalizing a with
  | nil => rfl
  | cons o rest ih =>
    simp only [hitListGo, accMax]
    cases h : o.hit r ⟨lo, F.val a.data.t⟩ with
    | none => exact ih a
    | some rec => exact ih rec

theorem hitListGo_restart {M : Type} (r : RayQ) (lo hi : F)
    (B : List (Prim M)) (a : HitRec M) :
    hitListGo r lo hi B (some a) =
      match hitListGo r lo (.val a.data.t) B none with
      | some b => some b
      | none => some a := by
  induction B generalizing a with
  | nil => simp [hitListGo]
  | cons o rest ih =>
    cases h : o.hit r ⟨lo, F.val a.data.t⟩ with
    | none =>
      simp only [hitListGo, accMax, h]
      exact ih a
    | some rec =>
      simp only [hitListGo, accMax, h]
      obtain ⟨b, hb⟩ := hitListGo_some r lo (F.val a.data.t) rest rec
      rw [hitListGo_acc_hi r lo hi (F.val a.data.t) rest rec, hb]

theorem hitListGo_none_of_all {M : Type} (r : RayQ) (lo hi : F)
    (B : List (Prim M)) (h : ∀ p ∈ B, p.hit r ⟨lo, hi⟩ = none) :
    hitListGo r lo hi B none = none := by
  induction B with
  | nil => rfl
  | cons o rest ih =>
    simp only [hitListGo, accMax, h o (List.mem_cons_self o rest)]
    exact ih fun p hp => h p (List.mem_cons_of_mem o hp)

theorem hitListGo_bounded {M : Type} {B : List (Prim M)}
    (hwf : ∀ p ∈ B, PrimWF p) (r : RayQ) (lo hi : F) :
    ∀ acc : Option (HitRec M),
      (∀ a, acc = some a →
        F.lt lo (.val a.data.t) = true ∧ F.lt (.val a.data.t) hi = true) →
      ∀ rec, hitListGo r lo hi B acc = some rec →
        F.lt lo (.val rec.data.t) = true ∧
        F.lt (.val rec.data.t) hi = true := by
  induction B with
  | nil =>
    intro acc hinv rec hres
    exact hinv rec hres
  | cons o rest ih =>
    intro acc hinv rec hres
    have hwo := hwf o (List.mem_cons_self o rest)
    have hwr : ∀ p ∈ rest, PrimWF p := fun p hp => hwf p (List.mem_cons_of_mem o hp)
    simp only [hitListGo] at hres
    cases h : o.hit r ⟨lo, accMax hi acc⟩ with
    | none =>
      rw [h] at hres
      exact ih hwr acc hinv rec hres
    | some rec0 =>
      rw [h] at hres
      have hb := hwo.bounded r lo (accMax hi acc) rec0 h
      have hhi : F.lt (.val rec0.data.t) hi = true := by
        cases hacc : acc with
        | none =>
          rw [hacc] at hb
          exact hb.2
        | some a =>
          rw [hacc] at hb
          exact F.lt_trans hb.2 (hinv a hacc).2
      exact ih hwr (some rec0) (fun a ha => by
        cases ha
        exact ⟨hb.1, hhi⟩) rec hres

/-- Characterization of the linear scan: a `none` result means every
member missed over the full interval; a `some` result is a member's hit
over the full interval (or the incoming accumulator), minimal among all
member hits. -/
theorem hitListGo_char {M : Type} {B : List (Prim M)}
    (hwf : ∀ p ∈ B, PrimWF p) (r : RayQ) (lo hi : F) :
    ∀ acc : Option (HitRec M),
      (∀ a, acc = some a →
        F.lt lo (.val a.data.t) = true ∧ F.lt (.val a.data.t) hi = true) →
      (hitListGo r lo hi B acc = none →
        acc = none ∧ ∀ p ∈ B, p.hit r ⟨lo, hi⟩ = none) ∧
      (∀ rec, hitListGo r lo hi B acc = some rec →
        (acc = some rec ∨ ∃ p ∈ B, p.hit r ⟨lo, hi⟩ = some rec) ∧
        (∀ p ∈ B, ∀ c, p.hit r ⟨lo, hi⟩ = some c →
          rec.data.t ≤ c.data.t) ∧
        (∀ a, acc = some a → rec.data.t ≤ a.data.t)) := by
  induction B with
  | nil =>
    intro acc hinv
    refine ⟨fun h => ⟨h, by simp⟩, fun rec hres => ⟨Or.inl hres, by simp, ?_⟩⟩
    intro a ha
    have h2 : acc = some rec := hres
    rw [h2] at ha
    cases ha
    exact le_refl _
  | cons o rest ih =>
    intro acc hinv
    have hwo := hwf o (List.mem_cons_self o rest)
    have hwr : ∀ p ∈ rest, PrimWF p := fun p hp => hwf p (List.mem_cons_of_mem o hp)
    cases acc with
    | none =>
      cases htop : o.hit r ⟨lo, hi⟩ with
      | none =>
        have hstep : hitListGo r lo hi (o :: rest) none = hitListGo r lo hi rest none := by
          simp only [hitListGo, accMax, htop]
        have hrec := ih hwr none (by simp)
        constructor
        · intro hres
          rw [hstep] at hres
          obtain ⟨-, hall⟩ := hrec.1 hres
          refine ⟨rfl, ?_⟩
          intro p hp
          rcases List.mem_cons.mp hp with h | h
          · cases h
            exact htop
          · exact hall p h
        · intro rec hres
          rw [hstep] at hres
          obtain ⟨hmem, hmin, -⟩ := hrec.2 rec hres
          refine ⟨?_, ?_, ?_⟩
          · rcases hmem with h | ⟨p, hp, hph⟩
            · exact absurd h (by simp)
            · exact Or.inr ⟨p, List.mem_cons_of_mem o hp, hph⟩
          · intro p hp c hpc
            rcases List.mem_cons.mp hp with h | h
            · cases h
              rw [htop] at hpc
              exact absurd hpc (by simp)
            · exact hmin p h c hpc
          · intro a ha
            exact absurd ha (by simp)
      | some rec0 =>
        have hb := hwo.bounded r lo hi rec0 htop
        have hstep : hitListGo r lo hi (o :: rest) none =
            hitListGo r lo hi rest (some rec0) := by
          simp only [hitListGo, accMax, htop]
        have hrec := ih hwr (some rec0) (fun a ha => by
          cases ha
          exact hb)
        constructor
        · intro hres
          rw [hstep] at hres
          obtain ⟨b, hbb⟩ := hitListGo_some r lo hi rest rec0
          rw [hres] at hbb
          exact absurd hbb (by simp)
        · intro rec hres
          rw [hstep] at hres
          obtain ⟨hmem, hmin, haccle⟩ := hrec.2 rec hres
          refine ⟨?_, ?_, ?_⟩
          · rcases hmem with h | ⟨p, hp, hph⟩
            · cases h
              exact Or.inr ⟨o, List.mem_cons_self o rest, htop⟩
            · exact Or.inr ⟨p, List.mem_cons_of_mem o hp, hph⟩
          · intro p hp c hpc
            rcases List.mem_cons.mp hp with h | h
            · cases h
              rw [htop] at hpc
              cases hpc
              exact haccle rec0 rfl
            · exact hmin p h c hpc
          · intro a ha
            exact absurd ha (by simp)
    | some a =>
      have hbou := hinv a rfl
      have hle : F.le (.val a.data.t) hi = true := F.le_of_lt hbou.2
      have hfil := hwo.filter_down r lo hi (.val a.data.t) hle
      cases htop : o.hit r ⟨lo, hi⟩ with
      | none =>
        have hsc : o.hit r ⟨lo, F.val a.data.t⟩ = none := by
          rw [hfil, htop]
          rfl
        have hstep : hitListGo r lo hi (o :: rest) (some a) =
            hitListGo r lo hi rest (some a) := by
          simp only [hitListGo, accMax, hsc]
        have hrec := ih hwr (some a) (fun a2 ha2 => by
          cases ha2
          exact hbou)
        constructor
        · intro hres
          rw [hstep] at hres
          obtain ⟨b, hbb⟩ := hitListGo_some r lo hi rest a
          rw [hres] at hbb
          exact absurd hbb (by simp)
        · intro rec hres
          rw [hstep] at hres
          obtain ⟨hmem, hmin, haccle⟩ := hrec.2 rec hres
          refine ⟨?_, ?_, ?_⟩
          · rcases hmem with h | ⟨p, hp, hph⟩
            · exact Or.inl h
            · exact Or.inr ⟨p, List.mem_cons_of_mem o hp, hph⟩
          · intro p hp c hpc
            rcases List.mem_cons.mp hp with h | h
            · cases h
              rw [htop] at hpc
              exact absurd hpc (by simp)
            · exact hmin p h c hpc
          · intro a2 ha2
            cases ha2
            exact haccle a rfl
      | some c0 =>
        have hb0 := hwo.bounded r lo hi c0 htop
        cases hcmp : F.lt (.val c0.data.t) (.val a.data.t) with
        | true =>
          have hsc : o.hit r ⟨lo, F.val a.data.t⟩ = some c0 := by
            rw [hfil, htop]
            simp [Option.filter, hcmp]
          have hstep : hitListGo r lo hi (o :: rest) (some a) =
              hitListGo r lo hi rest (some c0) := by
            simp only [hitListGo, accMax, hsc]
          have hrec := ih hwr (some c0) (fun a2 ha2 => by
            cases ha2
            exact hb0)
          constructor
          · intro hres
            rw [hstep] at hres
            obtain ⟨b, hbb⟩ := hitListGo_some r lo hi rest c0
            rw [hres] at hbb
            exact absurd hbb (by simp)
          · intro rec hres
            rw [hstep] at hres
            obtain ⟨hmem, hmin, haccle⟩ := hrec.2 rec hres
            have hrle : rec.data.t ≤ c0.data.t := haccle c0 rfl
            refine ⟨?_, ?_, ?_⟩
            · rcases hmem with h | ⟨p, hp, hph⟩
              · cases h
                exact Or.inr ⟨o, List.mem_cons_self o rest, htop⟩
              · exact Or.inr ⟨p, List.mem_cons_of_mem o hp, hph⟩
            · intro p hp c hpc
              rcases List.mem_cons.mp hp with h | h
              · cases h
                rw [htop] at hpc
                cases hpc
                exact hrle
              · exact hmin p h c hpc
            · intro a2 ha2
              cases ha2
              have := F.lt_val_val.mp hcmp
              linarith
        | false =>
          have hsc : o.hit r ⟨lo, F.val a.data.t⟩ = none := by
            rw [hfil, htop]
            simp [Option.filter, hcmp]
          have hstep : hitListGo r lo hi (o :: rest) (some a) =
              hitListGo r lo hi rest (some a) := by
            simp only [hitListGo, accMax, hsc]
          have hrec := ih hwr (some a) (fun a2 ha2 => by
            cases ha2
            exact hbou)
          have hac0 : a.data.t ≤ c0.data.t := by
            have hnot : ¬ (c0.data.t < a.data.t) := by
              intro hlt
              rw [(F.lt_val_val.mpr hlt :
                F.lt (.val c0.data.t) (.val a.data.t) = true)] at hcmp
              exact absurd hcmp (by simp)
            linarith
          constructor
          · intro hres
            rw [hstep] at hres
            obtain ⟨b, hbb⟩ := hitListGo_some r lo hi rest a
            rw [hres] at hbb
            exact absurd hbb (by simp)
          · intro rec hres
            rw [hstep] at hres
            obtain ⟨hmem, hmin, haccle⟩ := hrec.2 rec hres
            have hrle : rec.data.t ≤ a.data.t := haccle a rfl
            refine ⟨?_, ?_, ?_⟩
            · rcases hmem with h | ⟨p, hp, hph⟩
              · exact Or.inl h
              · exact Or.inr ⟨p, List.mem_cons_of_mem o hp, hph⟩
            · intro p hp c hpc
              rcases List.mem_cons.mp hp with h | h
              · cases h
                rw [htop] at hpc
                cases hpc
                linarith
              · exact hmin p h c hpc
            · intro a2 ha2
              cases ha2
              exact hrle

/-- No two distinct primitives of the list hit the ray at exactly the
same parametric distance over the queried interval. -/
def noTies {M : Type} (B : List (Prim M)) (r : RayQ) (i : IntervalF) : Prop :=
  ∀ p ∈ B, ∀ q ∈ B, p ≠ q → ∀ c c2, p.hit r i = some c →
    q.hit r i = some c2 → c.data.t ≠ c2.data.t

theorem scan_perm_t {M : Type} {B B2 : List (Prim M)} (hperm : B.Perm B2)
    (hwf : ∀ p ∈ B, PrimWF p) (r : RayQ) (lo hi : F) :
    (hitListGo r lo hi B none).map (fun rec => rec.data.t) =
      (hitListGo r lo hi B2 none).map (fun rec => rec.data.t) := by
  have hwf2 : ∀ p ∈ B2, PrimWF p := fun p hp => hwf p (hperm.mem_iff.mpr hp)
  have c1 := hitListGo_char hwf r lo hi none (by simp)
  have c2 := hitListGo_char hwf2 r lo hi none (by simp)
  cases h1 : hitListGo r lo hi B none with
  | none =>
    cases h2 : hitListGo r lo hi B2 none with
    | none => rfl
    | some rec2 =>
      obtain ⟨-, hall⟩ := c1.1 h1
      obtain ⟨hmem, -, -⟩ := c2.2 rec2 h2
      rcases hmem with h | ⟨p, hp, hph⟩
      · exact absurd h (by simp)
      · rw [hall p (hperm.mem_iff.mpr hp)] at hph
        exact absurd hph (by simp)
  | some rec1 =>
    cases h2 : hitListGo r lo hi B2 none with
    | none =>
      obtain ⟨-, hall⟩ := c2.1 h2
      obtain ⟨hmem, -, -⟩ := c1.2 rec1 h1
      rcases hmem with h | ⟨p, hp, hph⟩
      · exact absurd h (by simp)
      · rw [hall p (hperm.mem_iff.mp hp)] at hph
        exact absurd hph (by simp)
    | some rec2 =>
      obtain ⟨hmem1, hmin1, -⟩ := c1.2 rec1 h1
      obtain ⟨hmem2, hmin2, -⟩ := c2.2 rec2 h2
      rcases hmem1 with h | ⟨p, hp, hph⟩
      · exact absurd h (by simp)
      rcases hmem2 with h | ⟨q, hq, hqh⟩
      · exact absurd h (by simp)
      have hle1 : rec1.data.t ≤ rec2.data.t :=
        hmin1 q (hperm.mem_iff.mpr hq) rec2 hqh
      have hle2 : rec2.data.t ≤ rec1.data.t :=
        hmin2 p (hperm.mem_iff.mp hp) rec1 hph
      exact congrArg some (le_antisymm hle1 hle2)

theorem scan_perm_full {M : Type} {B B2 : List (Prim M)} (hperm : B.Perm B2)
    (hwf : ∀ p ∈ B, PrimWF p) (r : RayQ) (lo hi : F)
    (hnt : noTies B r ⟨lo, hi⟩) :
    hitListGo r lo hi B none = hitListGo r lo hi B2 none := by
  have hwf2 : ∀ p ∈ B2, PrimWF p := fun p hp => hwf p (hperm.mem_iff.mpr hp)
  have ht := scan_perm_t hperm hwf r lo hi
  have c1 := hitListGo_char hwf r lo hi none (by simp)
  have c2 := hitListGo_char hwf2 r lo hi none (by simp)
  cases h1 : hitListGo r lo hi B none with
  | none =>
    cases h2 : hitListGo r lo hi B2 none with
    | none => rfl
    | some rec2 =>
      rw [h1, h2] at ht
      exact absurd ht (by simp)
  | some rec1 =>
    cases h2 : hitListGo r lo hi B2 none with
    | none =>
      rw [h1, h2] at ht
      exact absurd ht (by simp)
    | some rec2 =>
      rw [h1, h2] at ht
      have ht2 : rec1.data.t = rec2.data.t := Option.some.inj ht
      obtain ⟨hmem1, -, -⟩ := c1.2 rec1 h1
      obtain ⟨hmem2, -, -⟩ := c2.2 rec2 h2
      rcases hmem1 with h | ⟨p, hp, hph⟩
      · exact absurd h (by simp)
      rcases hmem2 with h | ⟨q, hq, hqh⟩
      · exact absurd h (by simp)
      have hq2 : q ∈ B := hperm.mem_iff.mpr hq
      by_cases hpq : p = q
      · rw [hpq] at hph
        rw [hph] at hqh
        cases hqh
        rfl
      · exact absurd ht2 (hnt p hp q hq2 hpq rec1 rec2 hph hqh)

/-! ### Bounding-box folds -/

theorem insideStrict_from_boxes_left {pt : Vec3Q} {a b : AABBF}
    (h : insideStrict pt a = true) :
    insideStrict pt (AABBF.from_boxes a b) = true := by
  simp only [insideStrict, AABBF.from_boxes, Bool.and_eq_true] at h ⊢
  obtain ⟨⟨⟨⟨⟨h1, h2⟩, h3⟩, h4⟩, h5⟩, h6⟩ := h
  exact ⟨⟨⟨⟨⟨F.lt_of_le_of_lt (IntervalF.from_intervals_min_le_left a.x b.x) h1,
    F.lt_of_lt_of_le h2 (IntervalF.left_le_from_intervals_max a.x b.x)⟩,
    F.lt_of_le_of_lt (IntervalF.from_intervals_min_le_left a.y b.y) h3⟩,
    F.lt_of_lt_of_le h4 (IntervalF.left_le_from_intervals_max a.y b.y)⟩,
    F.lt_of_le_of_lt (IntervalF.from_intervals_min_le_left a.z b.z) h5⟩,
    F.lt_of_lt_of_le h6 (IntervalF.left_le_from_intervals_max a.z b.z)⟩

theorem insideStrict_from_boxes_right {pt : Vec3Q} {a b : AABBF}
    (h : insideStrict pt b = true) :
    insideStrict pt (AABBF.from_boxes a b) = true := by
  simp only [insideStrict, AABBF.from_boxes, Bool.and_eq_true] at h ⊢
  obtain ⟨⟨⟨⟨⟨h1, h2⟩, h3⟩, h4⟩, h5⟩, h6⟩ := h
  exact ⟨⟨⟨⟨⟨F.lt_of_le_of_lt (IntervalF.from_intervals_min_le_right a.x b.x) h1,
    F.lt_of_lt_of_le h2 (IntervalF.right_le_from_intervals_max a.x b.x)⟩,
    F.lt_of_le_of_lt (IntervalF.from_intervals_min_le_right a.y b.y) h3⟩,
    F.lt_of_lt_of_le h4 (IntervalF.right_le_from_intervals_max a.y b.y)⟩,
    F.lt_of_le_of_lt (IntervalF.from_intervals_min_le_right a.z b.z) h5⟩,
    F.lt_of_lt_of_le h6 (IntervalF.right_le_from_intervals_max a.z b.z)⟩

theorem insideStrict_foldl {M : Type} {pt : Vec3Q} :
    ∀ (l : List (Prim M)) (acc : AABBF), insideStrict pt acc = true →
      insideStrict pt
        (l.foldl (fun acc o => AABBF.from_boxes acc o.bbox) acc) = true := by
  intro l
  induction l with
  | nil => exact fun acc h => h
  | cons o rest ih =>
    intro acc h
    exact ih (AABBF.from_boxes acc o.bbox) (insideStrict_from_boxes_left h)

theorem insideStrict_foldl_mem {M : Type} {pt : Vec3Q} :
    ∀ (l : List (Prim M)) (acc : AABBF) (p : Prim M), p ∈ l →
      insideStrict pt p.bbox = true →
      insideStrict pt
        (l.foldl (fun acc o => AABBF.from_boxes acc o.bbox) acc) = true := by
  intro l
  induction l with
  | nil =>
    intro acc p hp
    cases hp
  | cons o rest ih =>
    intro acc p hp h
    rcases List.mem_cons.mp hp with heq | hmem
    · cases heq
      simp only [List.foldl_cons]
      exact insideStrict_foldl rest _ (insideStrict_from_boxes_right h)
    · simp only [List.foldl_cons]
      exact ih _ p hmem h

theorem insideStrict_bboxFold {M : Type} {pt : Vec3Q} {objs : List (Prim M)}
    {p : Prim M} (hp : p ∈ objs) (h : insideStrict pt p.bbox = true) :
    insideStrict pt (bboxFold objs) = true :=
  insideStrict_foldl_mem objs AABBF.EMPTY p hp h

theorem finiteBox_from_boxes {a b : AABBF} (ha : finiteBox a = true)
    (hb : finiteBox b = true) :
    finiteBox (AABBF.from_boxes a b) = true := by
  simp only [finiteBox, AABBF.from_boxes, IntervalF.from_intervals,
    Bool.and_eq_true] at ha hb ⊢
  obtain ⟨⟨⟨⟨⟨a1, a2⟩, a3⟩, a4⟩, a5⟩, a6⟩ := ha
  obtain ⟨⟨⟨⟨⟨b1, b2⟩, b3⟩, b4⟩, b5⟩, b6⟩ := hb
  refine ⟨⟨⟨⟨⟨?_, ?_⟩, ?_⟩, ?_⟩, ?_⟩, ?_⟩ <;> split <;> assumption

theorem finiteBox_foldl {M : Type} :
    ∀ (l : List (Prim M)) (acc : AABBF), finiteBox acc = true →
      (∀ p ∈ l, finiteBox p.bbox = true) →
      finiteBox (l.foldl (fun acc o => AABBF.from_boxes acc o.bbox) acc) = true := by
  intro l
  induction l with
  | nil => exact fun acc h _ => h
  | cons o rest ih =>
    intro acc h hall
    exact ih (AABBF.from_boxes acc o.bbox)
      (finiteBox_from_boxes h (hall o (List.mem_cons_self o rest)))
      fun p hp => hall p (List.mem_cons_of_mem o hp)

theorem finiteBox_bboxFold {M : Type} {objs : List (Prim M)}
    (hne : objs ≠ []) (h : ∀ p ∈ objs, finiteBox p.bbox = true) :
    finiteBox (bboxFold objs) = true := by
  cases objs with
  | nil => exact absurd rfl hne
  | cons o rest =>
    unfold bboxFold
    simp only [List.foldl_cons]
    rw [AABBF.from_boxes_empty_left]
    exact finiteBox_foldl rest o.bbox (h o (List.mem_cons_self o rest))
      fun p hp => h p (List.mem_cons_of_mem o hp)

theorem all_miss_of_slab_false {M : Type} {objs : List (Prim M)} {r : RayQ}
    {lo hi : F} (hwf : ∀ p ∈ objs, PrimWF p) (hd : dirNonzero r)
    (hne : objs ≠ [])
    (hslab : AABBF.hit (bboxFold objs) r ⟨lo, hi⟩ = false) :
    ∀ p ∈ objs, p.hit r ⟨lo, hi⟩ = none := by
  intro p hp
  cases hph : p.hit r ⟨lo, hi⟩ with
  | none => rfl
  | some rec =>
    exfalso
    have hb := (hwf p hp).bounded r lo hi rec hph
    have hin := (hwf p hp).inside r lo hi rec hph
    have hfold := insideStrict_bboxFold hp hin
    have hfin := finiteBox_bboxFold hne fun q hq => (hwf q hq).finite
    have := @slab_of_inside (bboxFold objs) r ⟨lo, hi⟩ rec.data.t hd hfin
      hfold hb.1 hb.2
    rw [this] at hslab
    exact absurd hslab (by simp)

/-! ### BVH traversal refines the linear scan -/

theorem node_prim_self_hit {M : Type} {a : Prim M}
    (hwf : ∀ p ∈ [a], PrimWF p) {r : RayQ} (hd : dirNonzero r) (lo hi : F) :
    HTree.hit (.node (.prim a) (.prim a) (bboxFold [a])) r ⟨lo, hi⟩ =
      hitListGo r lo hi [a] none := by
  cases hslab : AABBF.hit (bboxFold [a]) r ⟨lo, hi⟩ with
  | false =>
    have hlhs : HTree.hit (.node (.prim a) (.prim a) (bboxFold [a])) r ⟨lo, hi⟩ = none := by
      simp [HTree.hit, hslab]
    rw [hlhs]
    exact (hitListGo_none_of_all r lo hi [a]
      (all_miss_of_slab_false hwf hd (by simp) hslab)).symm
  | true =>
    cases htop : a.hit r ⟨lo, hi⟩ with
    | some rec =>
      have hwa := hwf a (by simp)
      have hb := hwa.bounded r lo hi rec htop
      have hsc : a.hit r ⟨lo, F.val rec.data.t⟩ = none := by
        rw [hwa.filter_down r lo hi (F.val rec.data.t) (F.le_of_lt hb.2), htop]
        simp [Option.filter, F.lt_irrefl]
      simp only [HTree.hit, IntervalF.new, hslab, hitListGo, accMax, htop,
        hsc, if_true]
    | none =>
      simp only [HTree.hit, IntervalF.new, hslab, hitListGo, accMax, htop,
        if_true]

theorem node_prim_pair_hit {M : Type} {a b : Prim M}
    (hwf : ∀ p ∈ [a, b], PrimWF p) {r : RayQ} (hd : dirNonzero r) (lo hi : F) :
    HTree.hit (.node (.prim a) (.prim b) (bboxFold [a, b])) r ⟨lo, hi⟩ =
      hitListGo r lo hi [a, b] none := by
  cases hslab : AABBF.hit (bboxFold [a, b]) r ⟨lo, hi⟩ with
  | false =>
    have hlhs : HTree.hit (.node (.prim a) (.prim b) (bboxFold [a, b])) r ⟨lo, hi⟩ = none := by
      simp [HTree.hit, hslab]
    rw [hlhs]
    exact (hitListGo_none_of_all r lo hi [a, b]
      (all_miss_of_slab_false hwf hd (by simp) hslab)).symm
  | true =>
    cases htopa : a.hit r ⟨lo, hi⟩ with
    | some ra =>
      cases htopb : b.hit r ⟨lo, F.val ra.data.t⟩ with
      | some rb =>
        have hbb := (hwf b (by simp)).bounded r lo (F.val ra.data.t) rb htopb
        have hlt : rb.data.t < ra.data.t := F.lt_val_val.mp hbb.2
        simp only [HTree.hit, IntervalF.new, hslab, hitListGo, accMax, htopa,
          htopb, if_true, if_pos hlt]
      | none =>
        simp only [HTree.hit, IntervalF.new, hslab, hitListGo, accMax, htopa,
          htopb, if_true]
    | none =>
      cases htopb : b.hit r ⟨lo, hi⟩ with
      | some rb =>
        simp only [HTree.hit, IntervalF.new, hslab, hitListGo, accMax, htopa,
          htopb, if_true]
      | none =>
        simp only [HTree.hit, IntervalF.new, hslab, hitListGo, accMax, htopa,
          htopb, if_true]

/-- The BVH built by `from_slice` traverses to exactly the result of the
linear `HittableList` scan over the primitives in their sorted order. -/
theorem bvh_eq_scan {M : Type} :
    ∀ (fuel : ℕ) (objs : List (Prim M)), objs ≠ [] →
      objs.length ≤ fuel → (∀ p ∈ objs, PrimWF p) →
      ∃ t L, fromSliceF fuel objs = some t ∧ L.Perm objs ∧
        ∀ r, dirNonzero r → ∀ lo hi,
          t.hit r ⟨lo, hi⟩ = hitListGo r lo hi L none := by
  intro fuel
  induction fuel with
  | zero =>
    intro objs hne hlen
    cases objs with
    | nil => exact absurd rfl hne
    | cons o rest => simp at hlen
  | succ fuel ih =>
    intro objs hne hlen hwf
    rcases objs with - | ⟨o1, - | ⟨o2, - | ⟨o3, rest⟩⟩⟩
    · exact absurd rfl hne
    · refine ⟨_, [o1], rfl, List.Perm.refl _, ?_⟩
      intro r hd lo hi
      exact node_prim_self_hit hwf hd lo hi
    · refine ⟨_, [o1, o2], rfl, List.Perm.refl _, ?_⟩
      intro r hd lo hi
      exact node_prim_pair_hit hwf hd lo hi
    · set axis := (bboxFold (o1 :: o2 :: o3 :: rest)).longest_axis with haxis
      set sorted := stableSort (boxLe axis) (o1 :: o2 :: o3 :: rest) with hsortdef
      set mid := (o1 :: o2 :: o3 :: rest).length / 2 with hmiddef
      have hunf : fromSliceF (fuel + 1) (o1 :: o2 :: o3 :: rest) =
          (match fromSliceF fuel (sorted.take mid),
              fromSliceF fuel (sorted.drop mid) with
            | some l, some rc =>
              some (.node l rc (bboxFold (o1 :: o2 :: o3 :: rest)))
            | _, _ => none) := rfl
      have hperm_sorted : sorted.Perm (o1 :: o2 :: o3 :: rest) :=
        stableSort_perm _ _
      have hslen : sorted.length = (o1 :: o2 :: o3 :: rest).length :=
        hperm_sorted.length_eq
      have hlenc : (o1 :: o2 :: o3 :: rest).length = rest.length + 3 := by
        simp
      have hmid1 : 1 ≤ mid := by
        rw [hmiddef, hlenc]
        omega
      have hmidlt : mid + 2 ≤ (o1 :: o2 :: o3 :: rest).length := by
        rw [hmiddef, hlenc]
        omega
      have htakelen : (sorted.take mid).length = mid := by
        rw [List.length_take, hslen]
        omega
      have hdroplen : (sorted.drop mid).length =
          (o1 :: o2 :: o3 :: rest).length - mid := by
        rw [List.length_drop, hslen]
      have htne : sorted.take mid ≠ [] := by
        rw [← List.length_pos, htakelen]
        omega
      have hdne : sorted.drop mid ≠ [] := by
        rw [← List.length_pos, hdroplen]
        omega
      have hwfs : ∀ p ∈ sorted, PrimWF p :=
        fun p hp => hwf p (hperm_sorted.mem_iff.mp hp)
      have hwfL : ∀ p ∈ sorted.take mid, PrimWF p :=
        fun p hp => hwfs p (List.mem_of_mem_take hp)
      have hwfR : ∀ p ∈ sorted.drop mid, PrimWF p :=
        fun p hp => hwfs p (List.mem_of_mem_drop hp)
      obtain ⟨tL, LL, hfl, hpermL, hhitL⟩ := ih (sorted.take mid) htne
        (by rw [htakelen]; omega) hwfL
      obtain ⟨tR, LR, hfr, hpermR, hhitR⟩ := ih (sorted.drop mid) hdne
        (by rw [hdroplen]; omega) hwfR
      have hLmem : ∀ p ∈ LL ++ LR, p ∈ (o1 :: o2 :: o3 :: rest) := by
        intro p hp
        have h1 : p ∈ sorted.take mid ++ sorted.drop mid :=
          (hpermL.append hpermR).mem_iff.mp hp
        rw [List.take_append_drop] at h1
        exact hperm_sorted.mem_iff.mp h1
      have hwfLL : ∀ p ∈ LL, PrimWF p :=
        fun p hp => hwfL p (hpermL.mem_iff.mp hp)
      have hwfLR : ∀ p ∈ LR, PrimWF p :=
        fun p hp => hwfR p (hpermR.mem_iff.mp hp)
      refine ⟨.node tL tR (bboxFold (o1 :: o2 :: o3 :: rest)), LL ++ LR, ?_, ?_, ?_⟩
      · rw [hunf, hfl, hfr]
      · have h1 : (LL ++ LR).Perm (sorted.take mid ++ sorted.drop mid) :=
          hpermL.append hpermR
        rw [List.take_append_drop] at h1
        exact h1.trans hperm_sorted
      · intro r hd lo hi
        cases hslab : AABBF.hit (bboxFold (o1 :: o2 :: o3 :: rest)) r ⟨lo, hi⟩ with
        | false =>
          have hlhs : HTree.hit (.node tL tR (bboxFold (o1 :: o2 :: o3 :: rest)))
              r ⟨lo, hi⟩ = none := by
            simp [HTree.hit, hslab]
          rw [hlhs]
          refine (hitListGo_none_of_all r lo hi (LL ++ LR) ?_).symm
          intro p hp
          exact all_miss_of_slab_false hwf hd (by simp) hslab p (hLmem p hp)
        | true =>
          have hL := hhitL r hd lo hi
          rw [hitListGo_append]
          cases hres : hitListGo r lo hi LL none with
          | some ra =>
            have hR := hhitR r hd lo (F.val ra.data.t)
            rw [hres] at hL
            have hlhs : HTree.hit (.node tL tR (bboxFold (o1 :: o2 :: o3 :: rest)))
                r ⟨lo, hi⟩ =
                (match hitListGo r lo (F.val ra.data.t) LR none with
                  | some rhs => some (if rhs.data.t < ra.data.t then rhs else ra)
                  | none => some ra) := by
              simp only [HTree.hit, hslab, if_true, IntervalF.new, hL, hR]
              cases hitListGo r lo (F.val ra.data.t) LR none <;> rfl
            rw [hlhs, hitListGo_restart r lo hi LR ra]
            cases hresR : hitListGo r lo (F.val ra.data.t) LR none with
            | some rb =>
              have hbb := hitListGo_bounded hwfLR r lo (F.val ra.data.t) none
                (by simp) rb hresR
              have hlt : rb.data.t < ra.data.t := F.lt_val_val.mp hbb.2
              simp only [if_pos hlt]
            | none => rfl
          | none =>
            have hR := hhitR r hd lo hi
            rw [hres] at hL
            have hlhs : HTree.hit (.node tL tR (bboxFold (o1 :: o2 :: o3 :: rest)))
                r ⟨lo, hi⟩ =
                (match hitListGo r lo hi LR none with
                  | some rhs => some rhs
                  | none => none) := by
              simp only [HTree.hit, hslab, if_true, IntervalF.new, hL, hR]
              cases hitListGo r lo hi LR none <;> rfl
            rw [hlhs]
            cases hresR : hitListGo r lo hi LR none <;> rfl

/-- C1 (amended): for every nonempty list of primitives satisfying the
`Hittable` contract, every ray with nonzero direction components, and
every interval, the BVH built by `from_slice` exists and its `hit`
returns the same nearest-hit parametric distance `t` as the
`HittableList` linear scan; and when no two distinct primitives hit the
ray at the same `t`, the full hit record (same `t` and same material)
coincides.  (The unamended claim — identical record including material
with no tie proviso — is refuted by the counterexample below: at an
exact tie the sort inside `from_slice` can reorder the primitives, and
BVH traversal then returns a different primitive's material.) -/
theorem bvh_hit_matches_list_scan {M : Type} (objs : List (Prim M))
    (fuel : ℕ) (r : RayQ) (lo hi : F) (hne : objs ≠ [])
    (hfuel : objs.length ≤ fuel) (hwf : ∀ p ∈ objs, PrimWF p)
    (hd : dirNonzero r) :
    ∃ t, fromSliceF fuel objs = some t ∧
      ((t.hit r ⟨lo, hi⟩).map (fun rec => rec.data.t) =
        (HittableList.hit objs r ⟨lo, hi⟩).map (fun rec => rec.data.t)) ∧
      (noTies objs r ⟨lo, hi⟩ →
        t.hit r ⟨lo, hi⟩ = HittableList.hit objs r ⟨lo, hi⟩) := by
  obtain ⟨t, L, hf, hperm, hhit⟩ := bvh_eq_scan fuel objs hne hfuel hwf
  have hwfL : ∀ p ∈ L, PrimWF p := fun p hp => hwf p (hperm.mem_iff.mp hp)
  refine ⟨t, hf, ?_, ?_⟩
  · rw [hhit r hd lo hi]
    exact scan_perm_t hperm hwfL r lo hi
  · intro hnt
    rw [hhit r hd lo hi]
    have hntL : noTies L r ⟨lo, hi⟩ := fun p hp q hq hpq c c2 h1 h2 =>
      hnt p (hperm.mem_iff.mp hp) q (hperm.mem_iff.mp hq) hpq c c2 h1 h2
    exact scan_perm_full hperm hwfL r lo hi hntL

/-! ### Concrete instances for claim C1 -/

/-- A fixed probe ray with all direction components nonzero. -/
def beaconRay : RayQ := ⟨⟨0, 0, 0⟩, ⟨1, 1, 1⟩, 0⟩

/-- A synthetic `Hittable`: it reports a hit at parameter `t0` (with
material `matId`) exactly for `beaconRay` whenever `t0` lies strictly
inside the queried interval, and misses every other ray.  It satisfies
the `Hittable` contract and exercises the BVH theorem. -/
def beaconHit (t0 : ℚ) (matId : ℕ) : RayQ → IntervalF → Option (HitRec ℕ) :=
  fun r i =>
    if r = beaconRay ∧ F.lt i.min (.val t0) = true ∧ F.lt (.val t0) i.max = true
    then some ⟨⟨beaconRay.at t0, ⟨0, 0, 1⟩, t0, true⟩, matId⟩ else none

/-- The beacon primitive: the hit function above with a unit-radius box
around its hit point. -/
def beaconPrim (t0 : ℚ) (matId : ℕ) : Prim ℕ :=
  ⟨beaconHit t0 matId,
   AABBF.from_points (Vec3Q.sub (beaconRay.at t0) ⟨1, 1, 1⟩)
     (Vec3Q.add (beaconRay.at t0) ⟨1, 1, 1⟩)⟩

theorem beaconPrim_wf (t0 : ℚ) (matId : ℕ) : PrimWF (beaconPrim t0 matId) := by
  constructor
  · intro r lo hi rec h
    simp only [beaconPrim, beaconHit] at h
    split at h
    · next hc =>
      cases h
      exact ⟨hc.2.1, hc.2.2⟩
    · exact absurd h (by simp)
  · intro r lo hi hi2 hle
    simp only [beaconPrim, beaconHit]
    by_cases hr : r = beaconRay
    · by_cases h1 : F.lt lo (.val t0) = true
      · by_cases h2 : F.lt (.val t0) hi2 = true
        · have h3 : F.lt (.val t0) hi = true := F.lt_of_lt_of_le h2 hle
          simp [hr, h1, h2, h3, Option.filter]
        · by_cases h3 : F.lt (.val t0) hi = true
          · simp [hr, h1, h2, h3, Option.filter]
          · simp [hr, h1, h2, h3]
      · simp [hr, h1]
    · simp [hr]
  · intro r lo hi rec h
    simp only [beaconPrim, beaconHit] at h
    split at h
    · next hc =>
      cases h
      rw [hc.1]
      have hmn : ∀ q : ℚ, (q - 1) ⊓ (q + 1) = q - 1 :=
        fun q => min_eq_left (by linarith)
      have hmx : ∀ q : ℚ, (q - 1) ⊔ (q + 1) = q + 1 :=
        fun q => max_eq_right (by linarith)
      have hpad : ∀ q : ℚ, ¬ ((q + 1) - (q - 1) < 1 / 10000) := by
        intro q
        norm_num
      simp only [beaconPrim, AABBF.from_points, insideStrict, pad_to_minimums,
        beaconRay, RayQ.at, Vec3Q.add, Vec3Q.sub, Vec3Q.smul, IntervalF.size,
        IntervalF.expand, F.sub, F.add, F.lt, hmn, hmx]
      norm_num
    · exact absurd h (by simp)
  · have hmn : ∀ q : ℚ, (q - 1) ⊓ (q + 1) = q - 1 :=
      fun q => min_eq_left (by linarith)
    have hmx : ∀ q : ℚ, (q - 1) ⊔ (q + 1) = q + 1 :=
      fun q => max_eq_right (by linarith)
    simp only [beaconPrim, AABBF.from_points, finiteBox, pad_to_minimums,
      beaconRay, RayQ.at, Vec3Q.add, Vec3Q.sub, Vec3Q.smul, IntervalF.size,
      IntervalF.expand, F.sub, F.add, F.lt, hmn, hmx]
    norm_num [F.isFinite]

/-- Three spheres placed so that the probe ray meets both the first and
the second at exactly `t = 1` (the second tangentially); the third only
forces `from_slice` to sort.  Along the longest axis (Z) the sort
reorders the first two, so BVH traversal reports material 1 where the
linear scan reports material 0. -/
def sphCEA : Sphere ℕ := Sphere.new ⟨6, 8, 24⟩ 13 0

/-- Second counterexample sphere (tangent to the probe ray at `t = 1`). -/
def sphCEB : Sphere ℕ := Sphere.new ⟨7, 1, 12⟩ 5 1

/-- Third counterexample sphere (far away, hit at `t = 3`). -/
def sphCEC : Sphere ℕ := Sphere.new ⟨12, 16, 48⟩ 13 2

/-- The counterexample primitive list, in scene order. -/
def primsCE : List (Prim ℕ) :=
  [.ofSphere sphCEA, .ofSphere sphCEB, .ofSphere sphCEC]

/-- The counterexample probe ray (all direction components nonzero). -/
def rayCE : RayQ := ⟨⟨0, 0, 0⟩, ⟨3, 4, 12⟩, 0⟩

/-- The counterexample query interval. -/
def iCE : IntervalF := ⟨.val (1 / 1000), .val 100⟩

/-- Witness for C1: the amended theorem applied to two contract-abiding
primitives hit by `beaconRay` at `t = 2` and `t = 3`. -/
theorem bvh_hit_matches_list_scan_witness :
    ∃ t, fromSliceF 2 [beaconPrim 2 0, beaconPrim 3 1] = some t ∧
      ((t.hit beaconRay ⟨.val 0, .val 100⟩).map (fun rec => rec.data.t) =
        (HittableList.hit [beaconPrim 2 0, beaconPrim 3 1] beaconRay
          ⟨.val 0, .val 100⟩).map (fun rec => rec.data.t)) ∧
      (noTies [beaconPrim 2 0, beaconPrim 3 1] beaconRay ⟨.val 0, .val 100⟩ →
        t.hit beaconRay ⟨.val 0, .val 100⟩ =
          HittableList.hit [beaconPrim 2 0, beaconPrim 3 1] beaconRay
            ⟨.val 0, .val 100⟩) :=
  bvh_hit_matches_list_scan [beaconPrim 2 0, beaconPrim 3 1] 2 beaconRay
    (.val 0) (.val 100) (by simp) (by simp)
    (by
      intro p hp
      rcases List.mem_cons.mp hp with h | h
      · cases h
        exact beaconPrim_wf 2 0
      · rcases List.mem_cons.mp h with h2 | h2
        · cases h2
          exact beaconPrim_wf 3 1
        · cases h2)
    (by
      refine ⟨?_, ?_, ?_⟩ <;> norm_num [beaconRay])

theorem qsqrt_zero : qsqrt 0 = 0 := by
  simp [qsqrt]

theorem qsqrt_one : qsqrt 1 = 1 := by
  have h : isqrtN ((1 : ℚ).num.toNat * (1 : ℚ).den) = 1 := by decide
  rw [qsqrt, if_neg (by norm_num), h]
  norm_num

theorem qsqrt_28561 : qsqrt 28561 = 169 := by
  have h : isqrtN ((28561 : ℚ).num.toNat * (28561 : ℚ).den) = 169 := by decide
  rw [qsqrt, if_neg (by norm_num), h]
  norm_num

theorem qsqrt_1e8 : qsqrt 100000000 = 10000 := by
  have h : isqrtN ((100000000 : ℚ).num.toNat * (100000000 : ℚ).den) = 10000 := by
    decide
  rw [qsqrt, if_neg (by norm_num), h]
  norm_num

/-- The hit record the linear scan reports on `primsCE`: sphere A's
entry hit at `t = 1`, material 0. -/
def recCEA : HitRec ℕ :=
  ⟨⟨⟨3, 4, 12⟩, ⟨-3/13, -4/13, -12/13⟩, 1, true⟩, 0⟩

/-- The hit record BVH traversal reports on `primsCE`: sphere B's
tangent hit at `t = 1` (back-face flagged, dot product zero), material 1. -/
def recCEB : HitRec ℕ :=
  ⟨⟨⟨3, 4, 12⟩, ⟨4/5, -3/5, 0⟩, 1, false⟩, 1⟩

theorem sphCEA_hit_full :
    Sphere.hit sphCEA rayCE ⟨.val (1/1000), .val 100⟩ = some recCEA := by
  norm_num [sphCEA, Sphere.new, Sphere.hit, rayCE, RayQ.at, RayQ.new,
    Vec3Q.add, Vec3Q.sub, Vec3Q.smul, Vec3Q.dot, Vec3Q.ZERO,
    Vec3Q.length_squared, Vec3Q.divs, Vec3Q.neg, IntervalF.surrounds,
    F.lt, qsqrt_28561, recCEA]

theorem sphCEA_hit_cut :
    Sphere.hit sphCEA rayCE ⟨.val (1/1000), .val 1⟩ = none := by
  norm_num [sphCEA, Sphere.new, Sphere.hit, rayCE, RayQ.at, RayQ.new,
    Vec3Q.add, Vec3Q.sub, Vec3Q.smul, Vec3Q.dot, Vec3Q.ZERO,
    Vec3Q.length_squared, Vec3Q.divs, Vec3Q.neg, IntervalF.surrounds,
    F.lt, qsqrt_28561]

theorem sphCEB_hit_full :
    Sphere.hit sphCEB rayCE ⟨.val (1/1000), .val 100⟩ = some recCEB := by
  norm_num [sphCEB, Sphere.new, Sphere.hit, rayCE, RayQ.at, RayQ.new,
    Vec3Q.add, Vec3Q.sub, Vec3Q.smul, Vec3Q.dot, Vec3Q.ZERO,
    Vec3Q.length_squared, Vec3Q.divs, Vec3Q.neg, IntervalF.surrounds,
    F.lt, qsqrt_zero, recCEB]

theorem sphCEB_hit_cut :
    Sphere.hit sphCEB rayCE ⟨.val (1/1000), .val 1⟩ = none := by
  norm_num [sphCEB, Sphere.new, Sphere.hit, rayCE, RayQ.at, RayQ.new,
    Vec3Q.add, Vec3Q.sub, Vec3Q.smul, Vec3Q.dot, Vec3Q.ZERO,
    Vec3Q.length_squared, Vec3Q.divs, Vec3Q.neg, IntervalF.surrounds,
    F.lt, qsqrt_zero]

theorem sphCEC_hit_cut :
    Sphere.hit sphCEC rayCE ⟨.val (1/1000), .val 1⟩ = none := by
  norm_num [sphCEC, Sphere.new, Sphere.hit, rayCE, RayQ.at, RayQ.new,
    Vec3Q.add, Vec3Q.sub, Vec3Q.smul, Vec3Q.dot, Vec3Q.ZERO,
    Vec3Q.length_squared, Vec3Q.divs, Vec3Q.neg, IntervalF.surrounds,
    F.lt, qsqrt_28561]


theorem hitListGo_cons_some {M : Type} (r : RayQ) (lo hi : F) (o : Prim M)
    (rest : List (Prim M)) (acc : Option (HitRec M)) (rec : HitRec M)
    (h : o.hit r ⟨lo, accMax hi acc⟩ = some rec) :
    hitListGo r lo hi (o :: rest) acc = hitListGo r lo hi rest (some rec) := by
  simp only [hitListGo, h]

theorem hitListGo_cons_none {M : Type} (r : RayQ) (lo hi : F) (o : Prim M)
    (rest : List (Prim M)) (acc : Option (HitRec M))
    (h : o.hit r ⟨lo, accMax hi acc⟩ = none) :
    hitListGo r lo hi (o :: rest) acc = hitListGo r lo hi rest acc := by
  simp only [hitListGo, h]

theorem scanCE :
    HittableList.hit primsCE rayCE iCE = some recCEA := by
  show hitListGo rayCE (.val (1/1000)) (.val 100)
    [Prim.ofSphere sphCEA, Prim.ofSphere sphCEB, Prim.ofSphere sphCEC] none =
      some recCEA
  rw [hitListGo_cons_some rayCE (.val (1/1000)) (.val 100) (Prim.ofSphere sphCEA)
      [Prim.ofSphere sphCEB, Prim.ofSphere sphCEC] none recCEA sphCEA_hit_full,
    hitListGo_cons_none rayCE (.val (1/1000)) (.val 100) (Prim.ofSphere sphCEB)
      [Prim.ofSphere sphCEC] (some recCEA) sphCEB_hit_cut,
    hitListGo_cons_none rayCE (.val (1/1000)) (.val 100) (Prim.ofSphere sphCEC)
      [] (some recCEA) sphCEC_hit_cut]
  rfl

theorem boxCEA : (Prim.ofSphere sphCEA).bbox =
    ⟨⟨.val (-7), .val 19⟩, ⟨.val (-5), .val 21⟩, ⟨.val 11, .val 37⟩⟩ := by
  norm_num [Prim.ofSphere, sphCEA, Sphere.new, AABBF.from_points, Vec3Q.add,
    Vec3Q.sub, RayQ.new, pad_to_minimums, IntervalF.size, IntervalF.expand,
    F.sub, F.add, F.lt]

theorem boxCEB : (Prim.ofSphere sphCEB).bbox =
    ⟨⟨.val 2, .val 12⟩, ⟨.val (-4), .val 6⟩, ⟨.val 7, .val 17⟩⟩ := by
  norm_num [Prim.ofSphere, sphCEB, Sphere.new, AABBF.from_points, Vec3Q.add,
    Vec3Q.sub, RayQ.new, pad_to_minimums, IntervalF.size, IntervalF.expand,
    F.sub, F.add, F.lt]

theorem boxCEC : (Prim.ofSphere sphCEC).bbox =
    ⟨⟨.val (-1), .val 25⟩, ⟨.val 3, .val 29⟩, ⟨.val 35, .val 61⟩⟩ := by
  norm_num [Prim.ofSphere, sphCEC, Sphere.new, AABBF.from_points, Vec3Q.add,
    Vec3Q.sub, RayQ.new, pad_to_minimums, IntervalF.size, IntervalF.expand,
    F.sub, F.add, F.lt]

theorem foldCE : bboxFold
    [Prim.ofSphere sphCEA, Prim.ofSphere sphCEB, Prim.ofSphere sphCEC] =
    ⟨⟨.val (-7), .val 25⟩, ⟨.val (-5), .val 29⟩, ⟨.val 7, .val 61⟩⟩ := by
  rw [show bboxFold
      [Prim.ofSphere sphCEA, Prim.ofSphere sphCEB, Prim.ofSphere sphCEC] =
    AABBF.from_boxes (AABBF.from_boxes
      (AABBF.from_boxes AABBF.EMPTY (Prim.ofSphere sphCEA).bbox)
      (Prim.ofSphere sphCEB).bbox) (Prim.ofSphere sphCEC).bbox from rfl,
    boxCEA, boxCEB, boxCEC, AABBF.from_boxes_empty_left]
  norm_num [AABBF.from_boxes, IntervalF.from_intervals, F.le, F.lt]

theorem foldCEB : bboxFold [Prim.ofSphere sphCEB] =
    ⟨⟨.val 2, .val 12⟩, ⟨.val (-4), .val 6⟩, ⟨.val 7, .val 17⟩⟩ := by
  rw [show bboxFold [Prim.ofSphere sphCEB] =
      AABBF.from_boxes AABBF.EMPTY (Prim.ofSphere sphCEB).bbox from rfl,
    boxCEB, AABBF.from_boxes_empty_left]

theorem foldCEAC : bboxFold [Prim.ofSphere sphCEA, Prim.ofSphere sphCEC] =
    ⟨⟨.val (-7), .val 25⟩, ⟨.val (-5), .val 29⟩, ⟨.val 11, .val 61⟩⟩ := by
  rw [show bboxFold [Prim.ofSphere sphCEA, Prim.ofSphere sphCEC] =
      AABBF.from_boxes (AABBF.from_boxes AABBF.EMPTY
        (Prim.ofSphere sphCEA).bbox) (Prim.ofSphere sphCEC).bbox from rfl,
    boxCEA, boxCEC, AABBF.from_boxes_empty_left]
  norm_num [AABBF.from_boxes, IntervalF.from_intervals, F.le, F.lt]

theorem axisCE : (bboxFold
    [Prim.ofSphere sphCEA, Prim.ofSphere sphCEB, Prim.ofSphere sphCEC]).longest_axis =
      Axis.Z := by
  rw [foldCE]
  norm_num [AABBF.longest_axis, IntervalF.size, F.sub, F.lt]

theorem bleBC : boxLe Axis.Z (Prim.ofSphere sphCEB) (Prim.ofSphere sphCEC) = true := by
  simp only [boxLe, boxCEB, boxCEC, AABBF.axis_interval]
  norm_num [F.le, F.lt]

theorem bleAB : boxLe Axis.Z (Prim.ofSphere sphCEA) (Prim.ofSphere sphCEB) = false := by
  simp only [boxLe, boxCEA, boxCEB, AABBF.axis_interval]
  norm_num [F.le, F.lt]

theorem bleAC : boxLe Axis.Z (Prim.ofSphere sphCEA) (Prim.ofSphere sphCEC) = true := by
  simp only [boxLe, boxCEA, boxCEC, AABBF.axis_interval]
  norm_num [F.le, F.lt]

theorem sortCE :
    stableSort (boxLe Axis.Z)
      [Prim.ofSphere sphCEA, Prim.ofSphere sphCEB, Prim.ofSphere sphCEC] =
      [Prim.ofSphere sphCEB, Prim.ofSphere sphCEA, Prim.ofSphere sphCEC] := by
  simp [stableSort, insertLe, bleBC, bleAB, bleAC]
def treeCE : HTree ℕ :=
  HTree.node
    (HTree.node (.prim (Prim.ofSphere sphCEB)) (.prim (Prim.ofSphere sphCEB))
      ⟨⟨.val 2, .val 12⟩, ⟨.val (-4), .val 6⟩, ⟨.val 7, .val 17⟩⟩)
    (HTree.node (.prim (Prim.ofSphere sphCEA)) (.prim (Prim.ofSphere sphCEC))
      ⟨⟨.val (-7), .val 25⟩, ⟨.val (-5), .val 29⟩, ⟨.val 11, .val 61⟩⟩)
    ⟨⟨.val (-7), .val 25⟩, ⟨.val (-5), .val 29⟩, ⟨.val 7, .val 61⟩⟩

theorem fromSliceCE : fromSliceF 3 primsCE = some treeCE := by
  rw [show primsCE =
    [Prim.ofSphere sphCEA, Prim.ofSphere sphCEB, Prim.ofSphere sphCEC] from rfl]
  simp only [fromSliceF]
  rw [axisCE, sortCE,
    show List.take ([Prim.ofSphere sphCEA, Prim.ofSphere sphCEB,
        Prim.ofSphere sphCEC].length / 2)
      [Prim.ofSphere sphCEB, Prim.ofSphere sphCEA, Prim.ofSphere sphCEC] =
      [Prim.ofSphere sphCEB] from rfl,
    show List.drop ([Prim.ofSphere sphCEA, Prim.ofSphere sphCEB,
        Prim.ofSphere sphCEC].length / 2)
      [Prim.ofSphere sphCEB, Prim.ofSphere sphCEA, Prim.ofSphere sphCEC] =
      [Prim.ofSphere sphCEA, Prim.ofSphere sphCEC] from rfl]
  rw [show fromSliceF 2 [Prim.ofSphere sphCEB] =
      some (HTree.node (.prim (Prim.ofSphere sphCEB)) (.prim (Prim.ofSphere sphCEB))
        (bboxFold [Prim.ofSphere sphCEB])) from by simp only [fromSliceF],
    show fromSliceF 2 [Prim.ofSphere sphCEA, Prim.ofSphere sphCEC] =
      some (HTree.node (.prim (Prim.ofSphere sphCEA)) (.prim (Prim.ofSphere sphCEC))
        (bboxFold [Prim.ofSphere sphCEA, Prim.ofSphere sphCEC])) from by
      simp only [fromSliceF]]
  rw [foldCEB, foldCEAC, foldCE]
  rfl
theorem htree_hit_node_some_none {M : Type} (l rc : HTree M) (bbox : AABBF)
    (r : RayQ) (ray_t : IntervalF) (lhs : HitRec M)
    (hslab : AABBF.hit bbox r ray_t = true)
    (hl : HTree.hit l r ray_t = some lhs)
    (hr : HTree.hit rc r (IntervalF.new ray_t.min (F.val lhs.data.t)) = none) :
    HTree.hit (.node l rc bbox) r ray_t = some lhs := by
  simp [HTree.hit, hslab, hl, hr]

theorem htree_hit_node_none_none {M : Type} (l rc : HTree M) (bbox : AABBF)
    (r : RayQ) (ray_t : IntervalF)
    (hslab : AABBF.hit bbox r ray_t = true)
    (hl : HTree.hit l r ray_t = none)
    (hr : HTree.hit rc r (IntervalF.new ray_t.min ray_t.max) = none) :
    HTree.hit (.node l rc bbox) r ray_t = none := by
  simp [HTree.hit, hslab, hl, hr]

theorem slabCEU :
    AABBF.hit ⟨⟨.val (-7), .val 25⟩, ⟨.val (-5), .val 29⟩, ⟨.val 7, .val 61⟩⟩
      rayCE iCE = true := by
  norm_num [AABBF.hit, slabAxis, rayCE, iCE, IntervalF.new,
    F.div, F.mul, F.sub, F.lt, F.le]

theorem slabCEB :
    AABBF.hit ⟨⟨.val 2, .val 12⟩, ⟨.val (-4), .val 6⟩, ⟨.val 7, .val 17⟩⟩
      rayCE iCE = true := by
  norm_num [AABBF.hit, slabAxis, rayCE, iCE, IntervalF.new,
    F.div, F.mul, F.sub, F.lt, F.le]

theorem slabCEAC :
    AABBF.hit ⟨⟨.val (-7), .val 25⟩, ⟨.val (-5), .val 29⟩, ⟨.val 11, .val 61⟩⟩
      rayCE ⟨.val (1/1000), .val 1⟩ = true := by
  norm_num [AABBF.hit, slabAxis, rayCE, IntervalF.new,
    F.div, F.mul, F.sub, F.lt, F.le]

theorem bvhCE : HTree.hit treeCE rayCE iCE = some recCEB := by
  have hleafBfull : HTree.hit (.prim (Prim.ofSphere sphCEB)) rayCE iCE =
      some recCEB := sphCEB_hit_full
  have hleafBcut : HTree.hit (.prim (Prim.ofSphere sphCEB)) rayCE
      (IntervalF.new iCE.min (F.val recCEB.data.t)) = none := sphCEB_hit_cut
  have hBB : HTree.hit (HTree.node (.prim (Prim.ofSphere sphCEB))
      (.prim (Prim.ofSphere sphCEB))
      ⟨⟨.val 2, .val 12⟩, ⟨.val (-4), .val 6⟩, ⟨.val 7, .val 17⟩⟩) rayCE iCE =
      some recCEB :=
    htree_hit_node_some_none _ _ _ _ _ _ slabCEB hleafBfull hleafBcut
  have hslabAC : AABBF.hit
      ⟨⟨.val (-7), .val 25⟩, ⟨.val (-5), .val 29⟩, ⟨.val 11, .val 61⟩⟩
      rayCE (IntervalF.new iCE.min (F.val recCEB.data.t)) = true := slabCEAC
  have hleafAcut : HTree.hit (.prim (Prim.ofSphere sphCEA)) rayCE
      (IntervalF.new iCE.min (F.val recCEB.data.t)) = none := sphCEA_hit_cut
  have hleafCcut : HTree.hit (.prim (Prim.ofSphere sphCEC)) rayCE
      (IntervalF.new (IntervalF.new iCE.min (F.val recCEB.data.t)).min
        (IntervalF.new iCE.min (F.val recCEB.data.t)).max) = none := sphCEC_hit_cut
  have hAC : HTree.hit (HTree.node (.prim (Prim.ofSphere sphCEA))
      (.prim (Prim.ofSphere sphCEC))
      ⟨⟨.val (-7), .val 25⟩, ⟨.val (-5), .val 29⟩, ⟨.val 11, .val 61⟩⟩) rayCE
      (IntervalF.new iCE.min (F.val recCEB.data.t)) = none :=
    htree_hit_node_none_none _ _ _ _ _ hslabAC hleafAcut hleafCcut
  show HTree.hit (HTree.node
    (HTree.node (.prim (Prim.ofSphere sphCEB)) (.prim (Prim.ofSphere sphCEB))
      ⟨⟨.val 2, .val 12⟩, ⟨.val (-4), .val 6⟩, ⟨.val 7, .val 17⟩⟩)
    (HTree.node (.prim (Prim.ofSphere sphCEA)) (.prim (Prim.ofSphere sphCEC))
      ⟨⟨.val (-7), .val 25⟩, ⟨.val (-5), .val 29⟩, ⟨.val 11, .val 61⟩⟩)
    ⟨⟨.val (-7), .val 25⟩, ⟨.val (-5), .val 29⟩, ⟨.val 7, .val 61⟩⟩) rayCE iCE =
      some recCEB
  exact htree_hit_node_some_none _ _ _ _ _ _ slabCEU hBB hAC
/-- Counterexample for the literal reading of C1: on `primsCE` the BVH
built by `fromSliceF` and the linear scan agree on the hit parameter
`t = 1` but report hit records with different materials, because two
spheres are tangent to the ray at the same `t` and the two traversal
orders break the tie differently. -/
theorem bvh_vs_scan_materials_differ :
    fromSliceF 3 primsCE = some treeCE ∧
    HTree.hit treeCE rayCE iCE = some recCEB ∧
    HittableList.hit primsCE rayCE iCE = some recCEA ∧
    recCEB.data.t = recCEA.data.t ∧
    recCEB.mat ≠ recCEA.mat :=
  ⟨fromSliceCE, bvhCE, scanCE, rfl, by decide⟩
/-! ### C10: sphere radius clamping -/

/-- C10: `Sphere::new` and `Sphere::new_moving` store `radius.max(0.0)`;
the stored radius is always non-negative, and a negative argument is
silently clamped to zero (construction never fails on the radius). -/
theorem sphere_radius_clamped {M : Type} (c c2 : Vec3Q) (r : ℚ) (m : M) :
    (Sphere.new c r m).radius = max r 0 ∧
    0 ≤ (Sphere.new c r m).radius ∧
    (Sphere.new_moving c c2 r m).radius = max r 0 ∧
    0 ≤ (Sphere.new_moving c c2 r m).radius ∧
    (r < 0 → (Sphere.new c r m).radius = 0 ∧
      (Sphere.new_moving c c2 r m).radius = 0) := by
  refine ⟨rfl, le_max_right r 0, rfl, le_max_right r 0, fun h => ⟨?_, ?_⟩⟩ <;>
    simp [Sphere.new, Sphere.new_moving, max_eq_right h.le]

/-- Witness for C10 at the concrete radius `-5`: both constructors store
radius `0`. -/
theorem sphere_radius_clamped_witness :
    (@Sphere.new ℕ ⟨0, 0, 0⟩ (-5) 0).radius = 0 ∧
    (@Sphere.new_moving ℕ ⟨0, 0, 0⟩ ⟨1, 1, 1⟩ (-5) 0).radius = 0 :=
  (@sphere_radius_clamped ℕ ⟨0, 0, 0⟩ ⟨1, 1, 1⟩ (-5) 0).2.2.2.2 (by norm_num)

/-! ### C4: the Metal fuzz clamp -/

/-- C4 (amended): `Metal::new` stores `fuzz.min(1.0)` — the stored fuzz
is clamped from above to `1` but NOT from below to `0`; it equals the
argument whenever the argument is at most `1`, and is non-negative only
when the argument is. -/
theorem metal_new_fuzz (name : String) (albedo : Vec3Q) (fuzz : ℚ) :
    (Metal.new name albedo fuzz).fuzz = min fuzz 1 ∧
    (Metal.new name albedo fuzz).fuzz ≤ 1 ∧
    (fuzz ≤ 1 → (Metal.new name albedo fuzz).fuzz = fuzz) ∧
    (0 ≤ fuzz → 0 ≤ (Metal.new name albedo fuzz).fuzz) := by
  refine ⟨rfl, min_le_right fuzz 1, fun h => ?_, fun h => ?_⟩
  · simp [Metal.new, min_eq_left h]
  · show (0 : ℚ) ≤ min fuzz 1
    exact le_min h (by norm_num)

/-- Witness for C4 at fuzz `1/2`. -/
theorem metal_new_fuzz_witness :
    (Metal.new "m" ⟨1, 1, 1⟩ (1 / 2)).fuzz = 1 / 2 ∧
    0 ≤ (Metal.new "m" ⟨1, 1, 1⟩ (1 / 2)).fuzz :=
  ⟨(metal_new_fuzz "m" ⟨1, 1, 1⟩ (1 / 2)).2.2.1 (by norm_num),
   (metal_new_fuzz "m" ⟨1, 1, 1⟩ (1 / 2)).2.2.2 (by norm_num)⟩

/-- Counterexample for the literal reading of C4: a negative fuzz
argument is stored unchanged — the stored value lies outside `[0, 1]`. -/
theorem metal_new_fuzz_negative :
    (Metal.new "m" ⟨1, 1, 1⟩ (-1)).fuzz = -1 ∧
    ¬ (0 ≤ (Metal.new "m" ⟨1, 1, 1⟩ (-1)).fuzz) := by
  norm_num [Metal.new]
/-! ### C5: `longest_axis` maximality and tie order -/

/-- C5 (amended): `AABB::longest_axis` always returns an axis of maximal
size, but the tie order is Z over Y over X — `X` is returned only when
its size strictly exceeds both others, `Y` only when it strictly exceeds
`Z` (and is at least `X`), and `Z` whenever it is at least both. -/
theorem longest_axis_correct (b : AABBF) :
    (∀ ax : Axis, F.le ((b.axis_interval ax).size)
      ((b.axis_interval b.longest_axis).size) = true) ∧
    (F.lt b.y.size b.x.size = true → F.lt b.z.size b.x.size = true →
      b.longest_axis = Axis.X) ∧
    (F.le b.x.size b.y.size = true → F.lt b.z.size b.y.size = true →
      b.longest_axis = Axis.Y) ∧
    (F.le b.x.size b.z.size = true → F.le b.y.size b.z.size = true →
      b.longest_axis = Axis.Z) := by
  refine ⟨?_, ?_, ?_, ?_⟩
  · intro ax
    simp only [AABBF.longest_axis]
    cases hyx : F.lt b.y.size b.x.size with
    | true =>
      cases hzx : F.lt b.z.size b.x.size with
      | true =>
        simp only [if_true]
        cases ax <;> simp only [AABBF.axis_interval]
        · exact F.le_refl _
        · exact F.le_of_lt hyx
        · exact F.le_of_lt hzx
      | false =>
        simp only [Bool.false_eq_true, if_false]
        cases ax <;> simp only [AABBF.axis_interval]
        · exact F.le_of_not_lt hzx
        · exact F.le_of_lt (F.lt_of_lt_of_le hyx (F.le_of_not_lt hzx))
        · exact F.le_refl _
    | false =>
      cases hzy : F.lt b.z.size b.y.size with
      | true =>
        simp only [Bool.false_eq_true, if_false, if_true]
        cases ax <;> simp only [AABBF.axis_interval]
        · exact F.le_of_not_lt hyx
        · exact F.le_refl _
        · exact F.le_of_lt hzy
      | false =>
        simp only [Bool.false_eq_true, if_false]
        cases ax <;> simp only [AABBF.axis_interval]
        · exact F.le_trans (F.le_of_not_lt hyx) (F.le_of_not_lt hzy)
        · exact F.le_of_not_lt hzy
        · exact F.le_refl _
  · intro hyx hzx
    simp [AABBF.longest_axis, hyx, hzx]
  · intro hxy hzy
    have hyx : F.lt b.y.size b.x.size = false := by
      cases h : F.lt b.y.size b.x.size
      · rfl
      · rw [F.not_le_iff_lt.mpr h] at hxy
        exact absurd hxy (by simp)
    simp [AABBF.longest_axis, hyx, hzy]
  · intro hxz hyz
    have hzy : F.lt b.z.size b.y.size = false := by
      cases h : F.lt b.z.size b.y.size
      · rfl
      · rw [F.not_le_iff_lt.mpr h] at hyz
        exact absurd hyz (by simp)
    cases hyx : F.lt b.y.size b.x.size with
    | true =>
      have hzx : F.lt b.z.size b.x.size = false := by
        cases h : F.lt b.z.size b.x.size
        · rfl
        · have hxx : F.lt b.x.size b.x.size = true := F.lt_of_le_of_lt hxz h
          rw [F.lt_irrefl] at hxx
          exact absurd hxx (by simp)
      simp [AABBF.longest_axis, hyx, hzx]
    | false =>
      simp [AABBF.longest_axis, hyx, hzy]

/-- Witness for C5: on the box over `(0,0,0)`–`(1,2,3)` the sizes are
`1 < 2 < 3` and `Z` is the strict maximum, so `longest_axis = Z`. -/
theorem longest_axis_correct_witness :
    (AABBF.from_points ⟨0, 0, 0⟩ ⟨1, 2, 3⟩).longest_axis = Axis.Z :=
  (longest_axis_correct (AABBF.from_points ⟨0, 0, 0⟩ ⟨1, 2, 3⟩)).2.2.2
    (by norm_num [AABBF.from_points, pad_to_minimums, IntervalF.size,
      IntervalF.expand, F.sub, F.lt, F.le, F.add])
    (by norm_num [AABBF.from_points, pad_to_minimums, IntervalF.size,
      IntervalF.expand, F.sub, F.lt, F.le, F.add])

/-- Counterexample for the literal reading of C5: on the box over
`(0,0,0)`–`(2,1,2)` the X and Z sizes are equal (both `2`) and exceed
Y (`1`), yet `longest_axis` returns `Z`, not the claimed `X`. -/
theorem longest_axis_tie_z :
    (AABBF.from_points ⟨0, 0, 0⟩ ⟨2, 1, 2⟩).longest_axis = Axis.Z ∧
    (AABBF.from_points ⟨0, 0, 0⟩ ⟨2, 1, 2⟩).x.size =
      (AABBF.from_points ⟨0, 0, 0⟩ ⟨2, 1, 2⟩).z.size ∧
    F.lt (AABBF.from_points ⟨0, 0, 0⟩ ⟨2, 1, 2⟩).y.size
      (AABBF.from_points ⟨0, 0, 0⟩ ⟨2, 1, 2⟩).x.size = true ∧
    Axis.Z ≠ Axis.X := by
  refine ⟨?_, ?_, ?_, by decide⟩ <;>
    norm_num [AABBF.from_points, AABBF.longest_axis, pad_to_minimums,
      IntervalF.size, IntervalF.expand, F.sub, F.lt, F.le, F.add]
/-! ### C2: dangling material/texture references -/

/-- C2 (code behaviour): a scene whose only shape references the absent
material name `"missing"`, and a scene whose only material references
the absent texture name `"missing"`, both abort the load with a panic
(the `materials[&material]` / `textures[&texture]` index operation),
not with the typed error channel — `LoadErr.panic` is distinct from
every typed `LoadErr.err` — while an unreadable image asset does take
the typed channel. -/
theorem scene_dangling_reference_panics :
    SceneFile.into_list (fun _ => Except.error "io")
      ⟨[], [], [ShapeSpec.Circle 1 (RayQ.new ⟨0, 0, 0⟩ Vec3Q.ZERO) "missing"]⟩ =
      Except.error LoadErr.panic ∧
    SceneFile.into_list (fun _ => Except.error "io")
      ⟨[], [("mat1", MaterialSpec.Lambertian "missing")], []⟩ =
      Except.error LoadErr.panic ∧
    SceneFile.into_list (fun _ => Except.error "io")
      ⟨[("tex1", TextureSpec.Image "missing.png")], [], []⟩ =
      Except.error (LoadErr.err "io") ∧
    (∀ msg : String, LoadErr.panic ≠ LoadErr.err msg) :=
  ⟨rfl, rfl, rfl, fun msg h => LoadErr.noConfusion h⟩
/-! ### C8: the quantized output of black and white -/

theorem rat_floor_eq_intFloor (q : ℚ) : q.floor = Int.floor q := rfl

/-- C8: writing pure black emits `"0 0 0"`, and writing the all-ones
color emits `"255 255 255"` (gamma of `1` is `1`, clamped to `0.999`,
and `⌊256 · 0.999⌋ = 255`). -/
theorem write_color_black_white :
    writeColorLine ⟨0, 0, 0⟩ = "0 0 0" ∧
    writeColorLine ⟨1, 1, 1⟩ = "255 255 255" := by
  have h0 : asI32 (256 * (INTENSITY.clamp (.val (linear_to_gamma 0))).toQ) = 0 := by
    norm_num [linear_to_gamma, INTENSITY, IntervalF.new, IntervalF.clamp,
      F.lt, F.toQ, asI32, rat_floor_eq_intFloor]
  have h1 : asI32 (256 * (INTENSITY.clamp (.val (linear_to_gamma 1))).toQ) =
      255 := by
    norm_num [linear_to_gamma, qsqrt_one, INTENSITY, IntervalF.new,
      IntervalF.clamp, F.lt, F.toQ, asI32, rat_floor_eq_intFloor]
  constructor
  · show toString (asI32 (256 * (INTENSITY.clamp
        (.val (linear_to_gamma (0 : ℚ)))).toQ)) ++ " " ++
      toString (asI32 (256 * (INTENSITY.clamp
        (.val (linear_to_gamma (0 : ℚ)))).toQ)) ++ " " ++
      toString (asI32 (256 * (INTENSITY.clamp
        (.val (linear_to_gamma (0 : ℚ)))).toQ)) = "0 0 0"
    rw [h0]
    rfl
  · show toString (asI32 (256 * (INTENSITY.clamp
        (.val (linear_to_gamma (1 : ℚ)))).toQ)) ++ " " ++
      toString (asI32 (256 * (INTENSITY.clamp
        (.val (linear_to_gamma (1 : ℚ)))).toQ)) ++ " " ++
      toString (asI32 (256 * (INTENSITY.clamp
        (.val (linear_to_gamma (1 : ℚ)))).toQ)) = "255 255 255"
    rw [h1]
    rfl
/-! ### C3: the minimum axis size of boxes -/

/-- On any ordered interval (`min <= max` in the `f64` order),
`pad_to_minimums` guarantees a size of at least `1/10000`. -/
theorem pad_to_minimums_size {i : IntervalF} (h : F.le i.min i.max = true) :
    F.le (.val (1 / 10000)) (pad_to_minimums i).size = true := by
  obtain ⟨mn, mx⟩ := i
  cases mn <;> cases mx
  case negInf.negInf => rfl
  case negInf.val => rfl
  case negInf.posInf => rfl
  case val.negInf => exact absurd h (by simp [F.le, F.lt])
  case val.posInf => rfl
  case posInf.negInf => exact absurd h (by simp [F.le, F.lt])
  case posInf.val => exact absurd h (by simp [F.le, F.lt])
  case posInf.posInf => rfl
  case val.val a b =>
    have hab : a ≤ b := by simpa [F.le, F.lt] using h
    have hsz : (IntervalF.mk (F.val a) (F.val b)).size = F.val (b - a) := rfl
    simp only [pad_to_minimums, hsz]
    split_ifs with hlt
    · have hlt' : b - a < 1 / 10000 := by simpa [F.lt] using hlt
      show F.le (.val (1 / 10000))
        ((IntervalF.mk (F.val a) (F.val b)).expand (1 / 10000)).size = true
      simp only [IntervalF.expand, IntervalF.size, F.sub, F.add, F.le, F.lt]
      simp only [Bool.not_eq_true', decide_eq_false_iff_not, not_lt]
      linarith
    · have hge : 1 / 10000 ≤ b - a := not_lt.mp (by simpa [F.lt] using hlt)
      simp only [IntervalF.size, F.sub, F.le, F.lt]
      simp only [Bool.not_eq_true', decide_eq_false_iff_not, not_lt]
      exact hge

/-- C3 (amended): the padded constructors meet the `1/10000` minimum —
`pad_to_minimums` (hence `AABB::new`) on every ordered axis interval,
`AABB::from_points` on every axis unconditionally, `UNIVERSE` trivially —
and `from_intervals` (hence `AABB::from_boxes`) preserves the bound from
either argument.  (`AABB::EMPTY` and the derived `Default` violate it:
see the companion counterexample.) -/
theorem aabb_min_axis_size (i : IntervalF) (a b : Vec3Q) (I1 I2 : IntervalF)
    (hi : F.le i.min i.max = true)
    (h1 : F.le (.val (1 / 10000)) I1.size = true) :
    F.le (.val (1 / 10000)) (pad_to_minimums i).size = true ∧
    (∀ ax : Axis, F.le (.val (1 / 10000))
      ((AABBF.from_points a b).axis_interval ax).size = true) ∧
    F.le (.val (1 / 10000)) (IntervalF.from_intervals I1 I2).size = true ∧
    (∀ ax : Axis, F.le (.val (1 / 10000))
      (AABBF.UNIVERSE.axis_interval ax).size = true) := by
  refine ⟨pad_to_minimums_size hi, ?_, ?_, ?_⟩
  · intro ax
    cases ax <;>
      · simp only [AABBF.from_points, AABBF.axis_interval]
        exact pad_to_minimums_size (by
          simp only [F.le, F.lt, Bool.not_eq_true']
          exact decide_eq_false (not_lt.mpr (min_le_max)))
  · refine F.le_trans h1 ?_
    exact F.sub_le_sub (IntervalF.left_le_from_intervals_max I1 I2)
      (IntervalF.from_intervals_min_le_left I1 I2)
  · intro ax
    cases ax <;> rfl

/-- Witness for C3 at concrete inputs: the degenerate ordered interval
`[0, 0]` is padded up to size `1/10000`, and the union of `[0, 1]` with
`[2, 3]` keeps size at least `1/10000`. -/
theorem aabb_min_axis_size_witness :
    F.le (.val (1 / 10000))
      (pad_to_minimums ⟨.val 0, .val 0⟩).size = true ∧
    (∀ ax : Axis, F.le (.val (1 / 10000))
      ((AABBF.from_points ⟨0, 0, 0⟩ ⟨1, 1, 1⟩).axis_interval ax).size = true) ∧
    F.le (.val (1 / 10000))
      (IntervalF.from_intervals ⟨.val 0, .val 1⟩ ⟨.val 2, .val 3⟩).size = true ∧
    (∀ ax : Axis, F.le (.val (1 / 10000))
      (AABBF.UNIVERSE.axis_interval ax).size = true) :=
  aabb_min_axis_size ⟨.val 0, .val 0⟩ ⟨0, 0, 0⟩ ⟨1, 1, 1⟩
    ⟨.val 0, .val 1⟩ ⟨.val 2, .val 3⟩
    (by norm_num [F.le, F.lt])
    (by norm_num [F.le, F.lt, IntervalF.size, F.sub])

/-- Counterexample for the literal reading of C3: `AABB::EMPTY` (and the
derived `Default`) have every axis interval of size `-∞`, far below the
claimed `1/10000` minimum. -/
theorem aabb_empty_axis_degenerate :
    (∀ ax : Axis, F.le (.val (1 / 10000))
      (AABBF.EMPTY.axis_interval ax).size = false) ∧
    (∀ ax : Axis, F.le (.val (1 / 10000))
      (AABBF.default.axis_interval ax).size = false) := by
  constructor <;> intro ax <;> cases ax <;> rfl
/-! ### C7: `from_slice` totality and the two-children shape -/

/-- With fuel at least the slice length, `fromSliceF` succeeds on every
non-empty slice and the root of the result is a two-child node. -/
theorem fromSliceF_total {M : Type} :
    ∀ (n : ℕ) (objs : List (Prim M)), 1 ≤ objs.length → objs.length ≤ n →
      ∃ l r bb, fromSliceF n objs = some (HTree.node l r bb) := by
  intro n
  induction n with
  | zero =>
    intro objs h1 h2
    exact absurd (h1.trans h2) (by norm_num)
  | succ n ih =>
    intro objs h1 h2
    rcases objs with _ | ⟨a, _ | ⟨b, _ | ⟨c, rest⟩⟩⟩
    · simp at h1
    · exact ⟨.prim a, .prim a, bboxFold [a], by simp [fromSliceF]⟩
    · exact ⟨.prim a, .prim b, bboxFold [a, b], by simp [fromSliceF]⟩
    · have hslen : (stableSort
          (boxLe (bboxFold (a :: b :: c :: rest)).longest_axis)
          (a :: b :: c :: rest)).length = (a :: b :: c :: rest).length :=
        (stableSort_perm _ _).length_eq
      have hlen : (a :: b :: c :: rest).length = rest.length + 3 := by
        simp [List.length_cons]
      obtain ⟨l1, r1, bb1, h1t⟩ := ih
        (List.take ((a :: b :: c :: rest).length / 2)
          (stableSort (boxLe (bboxFold (a :: b :: c :: rest)).longest_axis)
            (a :: b :: c :: rest)))
        (by rw [List.length_take, hslen, hlen]; omega)
        (by rw [List.length_take, hslen, hlen]; rw [hlen] at h2; omega)
      obtain ⟨l2, r2, bb2, h2t⟩ := ih
        (List.drop ((a :: b :: c :: rest).length / 2)
          (stableSort (boxLe (bboxFold (a :: b :: c :: rest)).longest_axis)
            (a :: b :: c :: rest)))
        (by rw [List.length_drop, hslen, hlen]; omega)
        (by rw [List.length_drop, hslen, hlen]; rw [hlen] at h2; omega)
      refine ⟨.node l1 r1 bb1, .node l2 r2 bb2,
        bboxFold (a :: b :: c :: rest), ?_⟩
      simp only [fromSliceF]
      rw [h1t, h2t]

/-- C7: on every non-empty slice, `from_slice` with fuel equal to the
slice length terminates with a tree whose root has exactly two
children; a one-element slice duplicates its primitive into both
children, and a two-element slice makes its elements the two children
directly. -/
theorem from_slice_two_children {M : Type} (objs : List (Prim M))
    (a b : Prim M) (h : 1 ≤ objs.length) :
    (∃ l r bb, fromSliceF objs.length objs = some (HTree.node l r bb)) ∧
    fromSliceF 1 [a] = some (HTree.node (.prim a) (.prim a) (bboxFold [a])) ∧
    fromSliceF 2 [a, b] =
      some (HTree.node (.prim a) (.prim b) (bboxFold [a, b])) :=
  ⟨fromSliceF_total objs.length objs h le_rfl,
   by simp [fromSliceF], by simp [fromSliceF]⟩

/-- Witness for C7 on a concrete one-element slice. -/
theorem from_slice_two_children_witness :
    (∃ l r bb, fromSliceF [Prim.ofSphere sphCEA].length [Prim.ofSphere sphCEA] =
      some (HTree.node l r bb)) ∧
    fromSliceF 1 [Prim.ofSphere sphCEA] =
      some (HTree.node (.prim (Prim.ofSphere sphCEA))
        (.prim (Prim.ofSphere sphCEA)) (bboxFold [Prim.ofSphere sphCEA])) ∧
    fromSliceF 2 [Prim.ofSphere sphCEA, Prim.ofSphere sphCEB] =
      some (HTree.node (.prim (Prim.ofSphere sphCEA))
        (.prim (Prim.ofSphere sphCEB))
        (bboxFold [Prim.ofSphere sphCEA, Prim.ofSphere sphCEB])) :=
  from_slice_two_children [Prim.ofSphere sphCEA] (Prim.ofSphere sphCEA)
    (Prim.ofSphere sphCEB) (by simp)
/-! ### C9: the positive lower cutoff of `ray_color` -/

/-- A material that always absorbs (its scatter returns `none`). -/
def matZero : MatF := ⟨fun _ _ => none⟩

/-- A sphere the probe ray crosses only at parameters below `0.001`. -/
def sphNear : Sphere MatF := Sphere.new ⟨0, 0, 5⟩ 1 matZero

/-- The probe ray for the cutoff: a very long direction vector puts both
sphere roots at `t = 1/2500` and `t = 3/5000`, below the cutoff. -/
def rayNear : RayQ := ⟨⟨0, 0, 0⟩, ⟨0, 0, 10000⟩, 0⟩

/-- The hit `sphNear` reports when queried over the laxer interval
`(0, 1)`: the near root `t = 1/2500`. -/
def recNear : HitRec MatF := ⟨⟨⟨0, 0, 4⟩, ⟨0, 0, -1⟩, 1 / 2500, true⟩, matZero⟩

/-- `ray_color` only sees the world through queries over
`(0.001, +∞)`: two worlds indistinguishable there give identical
colors at every ray and depth. -/
theorem rayColor_congr_aux (w1 w2 : List (Prim MatF))
    (h : ∀ r : RayQ, HittableList.hit w1 r ⟨.val (1 / 1000), .posInf⟩ =
      HittableList.hit w2 r ⟨.val (1 / 1000), .posInf⟩) :
    ∀ (n : ℕ) (depth : ℤ), depth.toNat ≤ n → ∀ r : RayQ,
      rayColor w1 r depth = rayColor w2 r depth := by
  intro n
  induction n with
  | zero =>
    intro depth hd r
    have hdep : depth ≤ 0 := by omega
    rw [rayColor.eq_def, rayColor.eq_def, if_pos hdep, if_pos hdep]
  | succ n ih =>
    intro depth hd r
    by_cases hdep : depth ≤ 0
    · rw [rayColor.eq_def, rayColor.eq_def, if_pos hdep, if_pos hdep]
    · rw [rayColor.eq_def, rayColor.eq_def, if_neg hdep, if_neg hdep, h r]
      cases hh : HittableList.hit w2 r ⟨.val (1 / 1000), .posInf⟩ with
      | none => rfl
      | some rec =>
        dsimp only
        cases hs : rec.mat.scatter r rec.data with
        | none => rfl
        | some sc =>
          dsimp only
          rw [ih (depth - 1) (by omega) sc.scattered]

/-- The scene query of `ray_color` misses `sphNear` entirely: both roots
lie at or below the `0.001` cutoff. -/
theorem sphNear_cutoff_miss :
    Sphere.hit sphNear rayNear ⟨.val (1 / 1000), .posInf⟩ = none := by
  norm_num [sphNear, Sphere.new, Sphere.hit, rayNear, RayQ.at, RayQ.new,
    Vec3Q.add, Vec3Q.sub, Vec3Q.smul, Vec3Q.dot, Vec3Q.ZERO,
    Vec3Q.length_squared, Vec3Q.divs, Vec3Q.neg, IntervalF.surrounds,
    F.lt, qsqrt_1e8]

/-- Queried over the laxer interval `(0, 1)` the same sphere is hit at
`t = 1/2500`. -/
theorem sphNear_lax_hit :
    Sphere.hit sphNear rayNear ⟨.val 0, .val 1⟩ = some recNear := by
  norm_num [sphNear, Sphere.new, Sphere.hit, rayNear, RayQ.at, RayQ.new,
    Vec3Q.add, Vec3Q.sub, Vec3Q.smul, Vec3Q.dot, Vec3Q.ZERO,
    Vec3Q.length_squared, Vec3Q.divs, Vec3Q.neg, IntervalF.surrounds,
    F.lt, qsqrt_1e8, recNear, matZero]

/-- C9: `ray_color` queries the world only over `(0.001, +∞)` — worlds
agreeing on such queries yield identical colors — and an intersection at
`t ≤ 0.001` is ignored: the world holding only `sphNear` (hit at
`t = 1/2500` over a laxer interval) renders exactly like the empty
world, giving the background gradient value. -/
theorem ray_color_positive_cutoff (w1 w2 : List (Prim MatF))
    (h : ∀ r : RayQ, HittableList.hit w1 r ⟨.val (1 / 1000), .posInf⟩ =
      HittableList.hit w2 r ⟨.val (1 / 1000), .posInf⟩) :
    (∀ (r : RayQ) (depth : ℤ), rayColor w1 r depth = rayColor w2 r depth) ∧
    rayColor [Prim.ofSphere sphNear] rayNear 5 = ⟨3 / 4, 17 / 20, 1⟩ ∧
    rayColor [] rayNear 5 = ⟨3 / 4, 17 / 20, 1⟩ ∧
    Sphere.hit sphNear rayNear ⟨.val 0, .val 1⟩ = some recNear ∧
    recNear.data.t ≤ 1 / 1000 := by
  have hscan : HittableList.hit [Prim.ofSphere sphNear] rayNear
      ⟨.val (1 / 1000), .posInf⟩ = none := by
    show hitListGo rayNear (.val (1 / 1000)) .posInf
      [Prim.ofSphere sphNear] none = none
    rw [hitListGo_cons_none rayNear (.val (1 / 1000)) .posInf
      (Prim.ofSphere sphNear) [] none sphNear_cutoff_miss]
    rfl
  have hbg : background rayNear = ⟨3 / 4, 17 / 20, 1⟩ := by
    norm_num [background, rayNear, Vec3Q.unit_vector, Vec3Q.length,
      Vec3Q.length_squared, Vec3Q.divs, Vec3Q.smul, Vec3Q.add, qsqrt_1e8]
  refine ⟨fun r depth => rayColor_congr_aux w1 w2 h depth.toNat depth le_rfl r,
    ?_, ?_, sphNear_lax_hit, by norm_num [recNear]⟩
  · rw [rayColor.eq_def, if_neg (by norm_num), hscan]
    exact hbg
  · rw [rayColor.eq_def, if_neg (by norm_num)]
    show background rayNear = _
    exact hbg

/-- Witness for C9 with the trivially-agreeing pair of empty worlds. -/
theorem ray_color_positive_cutoff_witness :
    (∀ (r : RayQ) (depth : ℤ),
      rayColor [] r depth = rayColor [] r depth) ∧
    rayColor [Prim.ofSphere sphNear] rayNear 5 = ⟨3 / 4, 17 / 20, 1⟩ ∧
    rayColor [] rayNear 5 = ⟨3 / 4, 17 / 20, 1⟩ ∧
    Sphere.hit sphNear rayNear ⟨.val 0, .val 1⟩ = some recNear ∧
    recNear.data.t ≤ 1 / 1000 :=
  ray_color_positive_cutoff [] [] (fun _ => rfl)
/-! ### C6: non-negativity of `ray_color` -/

/-- One Newton step from any positive guess stays at or above the floor
square root. -/
theorem sqrt_le_newton_step (n g : ℕ) (hg : 1 ≤ g) :
    Nat.sqrt n ≤ (g + n / g) / 2 := by
  have hs : Nat.sqrt n * Nat.sqrt n ≤ n := by
    have := Nat.sqrt_le' n
    nlinarith [this]
  rw [Nat.le_div_iff_mul_le (by norm_num : 0 < 2)]
  have hdiv : Nat.sqrt n * Nat.sqrt n / g ≤ n / g :=
    Nat.div_le_div_right hs
  rcases le_or_lt (2 * Nat.sqrt n) g with hge | hlt
  · have hd : 0 ≤ n / g := Nat.zero_le _
    omega
  · have hkey : (2 * Nat.sqrt n - g) * g ≤ Nat.sqrt n * Nat.sqrt n := by
      zify [hlt.le]
      nlinarith [sq_nonneg ((Nat.sqrt n : ℤ) - g)]
    have : 2 * Nat.sqrt n - g ≤ Nat.sqrt n * Nat.sqrt n / g :=
      (Nat.le_div_iff_mul_le hg).mpr hkey
    omega

/-- The Newton iteration never drops below the floor square root. -/
theorem sqrt_le_isqrtGo :
    ∀ (fuel n g : ℕ), Nat.sqrt n ≤ g → Nat.sqrt n ≤ isqrtGo fuel n g := by
  intro fuel
  induction fuel with
  | zero => intro n g h; exact h
  | succ fuel ih =>
    intro n g h
    show Nat.sqrt n ≤
      (if (g + n / g) / 2 < g then isqrtGo fuel n ((g + n / g) / 2) else g)
    split_ifs with hlt
    · rcases Nat.eq_zero_or_pos g with hg | hg
      · subst hg
        simp at hlt
      · exact ih n _ (sqrt_le_newton_step n g hg)
    · exact h

/-- `isqrtN` is at least the floor square root. -/
theorem isqrtN_ge_sqrt (n : ℕ) : Nat.sqrt n ≤ isqrtN n := by
  unfold isqrtN
  split_ifs with h
  · interval_cases n
    · simp
    · simp [Nat.sqrt_one]
  · exact sqrt_le_isqrtGo n n n (Nat.sqrt_le_self n)

/-- Any natural is at most four times the square of its floor square
root. -/
theorem nat_le_four_sqrt_sq (m : ℕ) : m ≤ 4 * (Nat.sqrt m * Nat.sqrt m) := by
  have h2 := Nat.lt_succ_sqrt m
  rcases Nat.eq_zero_or_pos (Nat.sqrt m) with h | h
  · rw [h] at h2
    omega
  · nlinarith [h, h2]

/-- Any natural is at most four times the square of its `isqrtN`. -/
theorem isqrtN_sq_bound (n : ℕ) : n ≤ 4 * (isqrtN n * isqrtN n) := by
  have h1 := isqrtN_ge_sqrt n
  have h2 := nat_le_four_sqrt_sq n
  nlinarith [h1, h2]

theorem qsqrt_nonneg (q : ℚ) : 0 ≤ qsqrt q := by
  unfold qsqrt
  split_ifs
  · exact le_refl 0
  · positivity

/-- `qsqrt` is never less than half the true square root: `4·qsqrt(q)²`
dominates `q`. -/
theorem sqrt4_bound {q : ℚ} (h : 0 ≤ q) : q ≤ 4 * (qsqrt q * qsqrt q) := by
  unfold qsqrt
  split_ifs with h0
  · have hq0 : q = 0 := le_antisymm h0 h
    simp [hq0]
  · push_neg at h0
    have hnum : 0 < q.num := Rat.num_pos.mpr h0
    have hden : (0 : ℚ) < (q.den : ℚ) := by
      exact_mod_cast q.pos
    have hb := isqrtN_sq_bound (q.num.toNat * q.den)
    rw [div_mul_div_comm, ← mul_div_assoc, le_div_iff (by positivity)]
    have h1 : (q.num : ℚ) = q * (q.den : ℚ) :=
      (div_eq_iff hden.ne').mp (Rat.num_div_den q)
    have hcast : ((q.num.toNat : ℕ) : ℚ) = (q.num : ℚ) := by
      exact_mod_cast Int.toNat_of_nonneg hnum.le
    have hq : q * ((q.den : ℚ) * (q.den : ℚ)) =
        ((q.num.toNat * q.den : ℕ) : ℚ) := by
      push_cast
      rw [hcast, h1]
      ring
    rw [hq]
    exact_mod_cast hb
/-- The `y` component of any `unit_vector` lies in `[-2, 2]` (the
`qsqrt` model loses at most a factor of two). -/
theorem unit_vector_y_bound (v : Vec3Q) :
    v.unit_vector.y * v.unit_vector.y ≤ 4 := by
  show (Vec3Q.smul (1 / v.length) v).y * (Vec3Q.smul (1 / v.length) v).y ≤ 4
  rcases eq_or_ne v.length 0 with hL | hL
  · simp [hL, Vec3Q.smul]
  · have hL0 : 0 < v.length := (qsqrt_nonneg _).lt_of_ne (Ne.symm hL)
    have hl2 : 0 ≤ v.length_squared := by
      unfold Vec3Q.length_squared
      nlinarith [mul_self_nonneg v.x, mul_self_nonneg v.y, mul_self_nonneg v.z]
    have hb : v.length_squared ≤ 4 * (v.length * v.length) := sqrt4_bound hl2
    have hy : v.y * v.y ≤ v.length_squared := by
      unfold Vec3Q.length_squared
      nlinarith [mul_self_nonneg v.x, mul_self_nonneg v.z]
    show 1 / v.length * v.y * (1 / v.length * v.y) ≤ 4
    rw [div_mul_eq_mul_div, one_mul, div_mul_div_comm,
      div_le_iff (by positivity)]
    nlinarith [hy, hb]

/-- Both channels of the sky gradient are non-negative for every ray. -/
theorem background_nonneg (r : RayQ) :
    0 ≤ (background r).x ∧ 0 ≤ (background r).y ∧ 0 ≤ (background r).z := by
  have h := unit_vector_y_bound r.dir
  have h2 : -2 ≤ r.dir.unit_vector.y ∧ r.dir.unit_vector.y ≤ 2 :=
    ⟨by nlinarith [h], by nlinarith [h]⟩
  show 0 ≤ (1 - 1 / 2 * (r.dir.unit_vector.y + 1)) * 1 +
      1 / 2 * (r.dir.unit_vector.y + 1) * (1 / 2) ∧
    0 ≤ (1 - 1 / 2 * (r.dir.unit_vector.y + 1)) * 1 +
      1 / 2 * (r.dir.unit_vector.y + 1) * (7 / 10) ∧
    0 ≤ (1 - 1 / 2 * (r.dir.unit_vector.y + 1)) * 1 +
      1 / 2 * (r.dir.unit_vector.y + 1) * 1
  refine ⟨by linarith [h2.1, h2.2], by linarith [h2.1, h2.2],
    by linarith [h2.1, h2.2]⟩

/-- Any record produced by the scan loop is the accumulator or the hit
of some member of the list. -/
theorem hitListGo_mem {M : Type} (r : RayQ) (lo hi : F) :
    ∀ (B : List (Prim M)) (acc : Option (HitRec M)) (rec : HitRec M),
      hitListGo r lo hi B acc = some rec →
      acc = some rec ∨ ∃ p ∈ B, ∃ i : IntervalF, p.hit r i = some rec := by
  intro B
  induction B with
  | nil =>
    intro acc rec h
    exact Or.inl h
  | cons o rest ih =>
    intro acc rec h
    cases ho : o.hit r ⟨lo, accMax hi acc⟩ with
    | some rec' =>
      rw [hitListGo_cons_some r lo hi o rest acc rec' ho] at h
      rcases ih (some rec') rec h with h1 | ⟨p, hp, i, hpi⟩
      · exact Or.inr ⟨o, List.mem_cons_self o rest,
          ⟨lo, accMax hi acc⟩, ho.trans h1⟩
      · exact Or.inr ⟨p, List.mem_cons_of_mem o hp, i, hpi⟩
    | none =>
      rw [hitListGo_cons_none r lo hi o rest acc ho] at h
      rcases ih acc rec h with h1 | ⟨p, hp, i, hpi⟩
      · exact Or.inl h1
      · exact Or.inr ⟨p, List.mem_cons_of_mem o hp, i, hpi⟩
/-- The well-behaved-materials contract of the spec's claim: every
scatter of a material reachable through some member's hit has channel-
wise non-negative attenuation. -/
def worldAttenOK (world : List (Prim MatF)) : Prop :=
  ∀ p ∈ world, ∀ (r : RayQ) (i : IntervalF) (rec : HitRec MatF),
    p.hit r i = some rec →
    ∀ (r_in : RayQ) (sc : ScatterRec), rec.mat.scatter r_in rec.data = some sc →
      0 ≤ sc.attenuation.x ∧ 0 ≤ sc.attenuation.y ∧ 0 ≤ sc.attenuation.z

/-- `ray_color` under the attenuation contract, fuelled induction. -/
theorem rayColor_nonneg_aux (world : List (Prim MatF))
    (hw : worldAttenOK world) :
    ∀ (n : ℕ) (depth : ℤ), depth.toNat ≤ n → ∀ r : RayQ,
      0 ≤ (rayColor world r depth).x ∧ 0 ≤ (rayColor world r depth).y ∧
        0 ≤ (rayColor world r depth).z := by
  intro n
  induction n with
  | zero =>
    intro depth hd r
    have hdep : depth ≤ 0 := by omega
    rw [rayColor.eq_def, if_pos hdep]
    exact ⟨le_refl 0, le_refl 0, le_refl 0⟩
  | succ n ih =>
    intro depth hd r
    by_cases hdep : depth ≤ 0
    · rw [rayColor.eq_def, if_pos hdep]
      exact ⟨le_refl 0, le_refl 0, le_refl 0⟩
    · rw [rayColor.eq_def, if_neg hdep]
      cases hh : HittableList.hit world r ⟨.val (1 / 1000), .posInf⟩ with
      | none => exact background_nonneg r
      | some rec =>
        dsimp only
        cases hs : rec.mat.scatter r rec.data with
        | none => exact ⟨le_refl 0, le_refl 0, le_refl 0⟩
        | some sc =>
          dsimp only
          have hmem : ∃ p ∈ world, ∃ i : IntervalF, p.hit r i = some rec := by
            rcases hitListGo_mem r (F.val (1 / 1000)) F.posInf world none rec
                hh with h1 | h2
            · exact absurd h1 (by simp)
            · exact h2
          obtain ⟨p, hp, i, hpi⟩ := hmem
          have hatt := hw p hp r i rec hpi r sc hs
          have hrec := ih (depth - 1) (by omega) sc.scattered
          exact ⟨mul_nonneg hatt.1 hrec.1, mul_nonneg hatt.2.1 hrec.2.1,
            mul_nonneg hatt.2.2 hrec.2.2⟩

/-- C6 (amended): for every world whose reachable materials only ever
scatter with channel-wise non-negative attenuation, `ray_color` returns
a color with every channel non-negative, at every ray and depth.  (The
unrestricted claim fails: a metal with a negative albedo propagates
negative channels — see the companion counterexample.) -/
theorem ray_color_nonneg (world : List (Prim MatF)) (hw : worldAttenOK world)
    (r : RayQ) (depth : ℤ) :
    0 ≤ (rayColor world r depth).x ∧ 0 ≤ (rayColor world r depth).y ∧
      0 ≤ (rayColor world r depth).z :=
  rayColor_nonneg_aux world hw depth.toNat depth le_rfl r

/-- A sphere hit always carries the sphere's own material. -/
theorem Sphere.hit_mat {M : Type} {s : Sphere M} {r : RayQ} {i : IntervalF}
    {rec : HitRec M} (h : Sphere.hit s r i = some rec) : rec.mat = s.mat := by
  simp only [Sphere.hit] at h
  split_ifs at h <;>
    first
      | exact Option.noConfusion h
      | (injection h with h2; rw [← h2])

/-- A material scattering with constant attenuation `(1/2, 1/2, 1/2)`. -/
def matHalf : MatF := ⟨fun r_in _ => some ⟨⟨1 / 2, 1 / 2, 1 / 2⟩, r_in⟩⟩

/-- A sphere carrying `matHalf`. -/
def sphHalf : Sphere MatF := Sphere.new ⟨0, 0, -5⟩ 1 matHalf

/-- The one-sphere `matHalf` world satisfies the attenuation contract. -/
theorem worldAttenOK_half : worldAttenOK [Prim.ofSphere sphHalf] := by
  intro p hp r i rec hrec r_in sc hsc
  rw [List.mem_singleton] at hp
  subst hp
  have hmat : rec.mat = matHalf := Sphere.hit_mat hrec
  rw [hmat] at hsc
  have hsc' : sc = ⟨⟨1 / 2, 1 / 2, 1 / 2⟩, r_in⟩ := (Option.some.inj hsc).symm
  subst hsc'
  norm_num

/-- Witness for C6: the contract world built over `sphHalf`. -/
theorem ray_color_nonneg_witness :
    0 ≤ (rayColor [Prim.ofSphere sphHalf] rayNear 3).x ∧
    0 ≤ (rayColor [Prim.ofSphere sphHalf] rayNear 3).y ∧
    0 ≤ (rayColor [Prim.ofSphere sphHalf] rayNear 3).z :=
  ray_color_nonneg [Prim.ofSphere sphHalf] worldAttenOK_half rayNear 3
/-- A metal with negative albedo (fuzz `0`). -/
def metalNeg : Metal := Metal.new "m" ⟨-1, -1, -1⟩ 0

/-- The negative-albedo metal as a `MatF` (RNG draw fixed at `(1,0,0)`,
irrelevant at fuzz `0`). -/
def matMetalNeg : MatF := ⟨fun r_in rec => Metal.scatter metalNeg ⟨1, 0, 0⟩ r_in rec⟩

/-- A sphere carrying the negative-albedo metal. -/
def sphMetal : Sphere MatF := Sphere.new ⟨0, 0, -5⟩ 1 matMetalNeg

/-- The probe ray into `sphMetal`. -/
def rayNeg : RayQ := ⟨⟨0, 0, 0⟩, ⟨0, 0, -1⟩, 0⟩

/-- The hit of `rayNeg` on `sphMetal` at `t = 4`. -/
def recNeg : HitRec MatF := ⟨⟨⟨0, 0, -4⟩, ⟨0, 0, 1⟩, 4, true⟩, matMetalNeg⟩

/-- The scattered (reflected) ray leaving the hit point. -/
def rayNeg2 : RayQ := ⟨⟨0, 0, -4⟩, ⟨0, 0, 1⟩, 0⟩

theorem sphMetal_hit :
    Sphere.hit sphMetal rayNeg ⟨.val (1 / 1000), .posInf⟩ = some recNeg := by
  norm_num [sphMetal, Sphere.new, Sphere.hit, rayNeg, RayQ.at, RayQ.new,
    Vec3Q.add, Vec3Q.sub, Vec3Q.smul, Vec3Q.dot, Vec3Q.ZERO,
    Vec3Q.length_squared, Vec3Q.divs, Vec3Q.neg, IntervalF.surrounds,
    F.lt, qsqrt_one, recNeg]

theorem sphMetal_miss2 :
    Sphere.hit sphMetal rayNeg2 ⟨.val (1 / 1000), .posInf⟩ = none := by
  norm_num [sphMetal, Sphere.new, Sphere.hit, rayNeg2, RayQ.at, RayQ.new,
    Vec3Q.add, Vec3Q.sub, Vec3Q.smul, Vec3Q.dot, Vec3Q.ZERO,
    Vec3Q.length_squared, Vec3Q.divs, Vec3Q.neg, IntervalF.surrounds,
    F.lt, qsqrt_one]

theorem recNeg_scatter :
    recNeg.mat.scatter rayNeg recNeg.data =
      some ⟨⟨-1, -1, -1⟩, rayNeg2⟩ := by
  norm_num [recNeg, matMetalNeg, Metal.scatter, metalNeg, Metal.new,
    Vec3Q.reflect, Vec3Q.unit_vector, Vec3Q.length, Vec3Q.length_squared,
    Vec3Q.divs, Vec3Q.smul, Vec3Q.sub, Vec3Q.add, Vec3Q.dot,
    RayQ.newWithTime, rayNeg, rayNeg2, qsqrt_one]

theorem background_rayNeg2 : background rayNeg2 = ⟨3 / 4, 17 / 20, 1⟩ := by
  norm_num [background, rayNeg2, Vec3Q.unit_vector, Vec3Q.length,
    Vec3Q.length_squared, Vec3Q.divs, Vec3Q.smul, Vec3Q.add, qsqrt_one]

/-- Counterexample for the literal reading of C6: one bounce off a
negative-albedo metal makes every channel of `ray_color` negative. -/
theorem ray_color_negative :
    rayColor [Prim.ofSphere sphMetal] rayNeg 2 = ⟨-3 / 4, -17 / 20, -1⟩ ∧
    (rayColor [Prim.ofSphere sphMetal] rayNeg 2).x < 0 ∧
    (rayColor [Prim.ofSphere sphMetal] rayNeg 2).y < 0 ∧
    (rayColor [Prim.ofSphere sphMetal] rayNeg 2).z < 0 := by
  have hscan1 : HittableList.hit [Prim.ofSphere sphMetal] rayNeg
      ⟨.val (1 / 1000), .posInf⟩ = some recNeg := by
    show hitListGo rayNeg (.val (1 / 1000)) .posInf
      [Prim.ofSphere sphMetal] none = some recNeg
    rw [hitListGo_cons_some rayNeg (.val (1 / 1000)) .posInf
      (Prim.ofSphere sphMetal) [] none recNeg sphMetal_hit]
    rfl
  have hscan2 : HittableList.hit [Prim.ofSphere sphMetal] rayNeg2
      ⟨.val (1 / 1000), .posInf⟩ = none := by
    show hitListGo rayNeg2 (.val (1 / 1000)) .posInf
      [Prim.ofSphere sphMetal] none = none
    rw [hitListGo_cons_none rayNeg2 (.val (1 / 1000)) .posInf
      (Prim.ofSphere sphMetal) [] none sphMetal_miss2]
    rfl
  have hone : rayColor [Prim.ofSphere sphMetal] rayNeg2 (2 - 1) =
      ⟨3 / 4, 17 / 20, 1⟩ := by
    rw [rayColor.eq_def, if_neg (by norm_num), hscan2]
    exact background_rayNeg2
  have hmain : rayColor [Prim.ofSphere sphMetal] rayNeg 2 =
      ⟨-3 / 4, -17 / 20, -1⟩ := by
    rw [rayColor.eq_def, if_neg (by norm_num), hscan1]
    dsimp only
    rw [recNeg_scatter]
    dsimp only
    rw [hone]
    norm_num [Vec3Q.cmul]
  exact ⟨hmain, by rw [hmain]; norm_num, by rw [hmain]; norm_num,
    by rw [hmain]; norm_num⟩
end Rtiow
